import Mathlib

/-!
Verification of the day09 maximum-distance inscribed-rectangle search
(`src/day09/src/main/python/day09_viz.py`).

The development shallowly embeds the algorithmic core of the Python file:
coordinate compression, vertical-edge extraction, ray-casting interior
rasterization, 2-D prefix sums, the Chebyshev transform, the rectangle
validator, Python's `heapq` (`heappush` / `heappop` with `_siftup` /
`_siftdown`, specialised to the `Candidate.__lt__` comparison), and the two
search loops (`precompute_animation_count` and `run_algorithm`).  Integers
are modelled as `Int` (Python integers are unbounded); lists model Python
lists; the `dict` of vertical edges is flattened to a list of
`(x, ymin, ymax)` triples, which leaves every crossing count unchanged
because the code only ever sums over all entries.
-/

namespace Day09

/-- `manhattan_distance` from the source: `abs(p1[0]-p2[0]) + abs(p1[1]-p2[1])`. -/
def manhattan_distance (p1 p2 : Int × Int) : Int :=
  |p1.1 - p2.1| + |p1.2 - p2.2|

/-- `chebyshev_transform` from the source: `(x + y, x - y)`. -/
def chebyshev_transform (x y : Int) : Int × Int :=
  (x + y, x - y)

/-- Python's `sorted(set(l))`: the distinct values of `l` in increasing order. -/
def sortedDistinct (l : List Int) : List Int :=
  l.dedup.insertionSort (· ≤ ·)

/-- The `xs` component of `compress_coordinates`. -/
def compress_xs (points : List (Int × Int)) : List Int :=
  sortedDistinct (points.map (·.1))

/-- The `ys` component of `compress_coordinates`. -/
def compress_ys (points : List (Int × Int)) : List Int :=
  sortedDistinct (points.map (·.2))

/-- The dictionaries `x_index` / `y_index` of `compress_coordinates` map each
coordinate value to its position in the sorted distinct list; on a list
without duplicates this is exactly `indexOf`. -/
def coord_index (xs : List Int) (v : Int) : Nat :=
  xs.indexOf v

/-- `build_vertical_edges`: for every boundary edge `points[i] -> points[(i+1) % n]`
with equal x-coordinates, record `(x, min y, max y)`.  The Python code groups
these triples into a dict keyed on `x`; crossing counting only ever iterates
over all of them, so the flat list is an equivalent model. -/
def build_vertical_edges (points : List (Int × Int)) : List (Int × Int × Int) :=
  (points.zip (points.rotate 1)).filterMap fun pq =>
    if pq.1.1 = pq.2.1 then some (pq.1.1, min pq.1.2 pq.2.2, max pq.1.2 pq.2.2) else none

/-- The crossing count of `is_cell_inside`: the number of vertical edges with
`x > px` whose half-open y-span `[min_y, max_y)` contains `py`. -/
def crossing_count (px py : Int) (ve : List (Int × Int × Int)) : Nat :=
  ve.countP fun e => decide (px < e.1 ∧ e.2.1 ≤ py ∧ py < e.2.2)

/-- `is_cell_inside`: ray casting from `(xs[cell_x], ys[cell_y])` to +x infinity;
the cell is inside iff the crossing count is odd. -/
def is_cell_inside (cell_x cell_y : Nat) (xs ys : List Int)
    (ve : List (Int × Int × Int)) : Bool :=
  let px := xs.getD cell_x 0
  let py := ys.getD cell_y 0
  decide (crossing_count px py ve % 2 = 1)

/-- `build_inside_grid`: the `(len xs - 1) × (len ys - 1)` grid of
`is_cell_inside` verdicts, outer index `i` over x-cells. -/
def build_inside_grid (xs ys : List Int) (ve : List (Int × Int × Int)) :
    List (List Bool) :=
  (List.range (xs.length - 1)).map fun i =>
    (List.range (ys.length - 1)).map fun j => is_cell_inside i j xs ys ve

/-- Read entry `(i, j)` of a 2-D table, defaulting to 0 (the Python code never
reads out of bounds on the inputs it builds). -/
def get2 (t : List (List Int)) (i j : Nat) : Int :=
  (t.getD i []).getD j 0

/-- Write entry `(i, j)` of a 2-D table. -/
def set2 (t : List (List Int)) (i j : Nat) (v : Int) : List (List Int) :=
  t.set i ((t.getD i []).set j v)

/-- `build_prefix_sums`: starting from a zero-filled
`(num_cells_x + 1) × (num_cells_y + 1)` table, fill
`prefix[i+1][j+1] = prefix[i][j+1] + prefix[i+1][j] - prefix[i][j] + inside[i][j]`
in row-major order, exactly as the Python double loop does. -/
def build_prefix_sums (inside : List (List Bool)) : List (List Int) :=
  let num_cells_x := inside.length
  let num_cells_y := (inside.headD []).length
  let init : List (List Int) :=
    List.replicate (num_cells_x + 1) (List.replicate (num_cells_y + 1) 0)
  (List.range num_cells_x).foldl
    (fun t i =>
      (List.range num_cells_y).foldl
        (fun t j =>
          set2 t (i + 1) (j + 1)
            (get2 t i (j + 1) + get2 t (i + 1) j - get2 t i j +
              (if (inside.getD i []).getD j false then 1 else 0)))
        t)
    init

/-- `count_inside`: inclusion–exclusion query
`prefix[i2][j2] - prefix[i1][j2] - prefix[i2][j1] + prefix[i1][j1]`. -/
def count_inside (i1 j1 i2 j2 : Nat) (prefixSums : List (List Int)) : Int :=
  get2 prefixSums i2 j2 - get2 prefixSums i1 j2 - get2 prefixSums i2 j1 +
    get2 prefixSums i1 j1

/-- Python's stable `sorted(range n, key)` equals sorting the indices by the
lexicographic order on `(key i, i)`. -/
def sort_by_key (key : Nat → Int) (n : Nat) : List Nat :=
  (List.range n).insertionSort fun i j => key i < key j ∨ (key i = key j ∧ i ≤ j)

/-- The immutable per-session data the `Day09Visualization` object precomputes
in `construct` before the search starts. -/
structure AlgState where
  points : List (Int × Int)
  xs : List Int
  ys : List Int
  inside : List (List Bool)
  prefixSums : List (List Int)
  cheb_points : List (Int × Int)
  by_u : List Nat
  by_v : List Nat
deriving Repr

/-- The data-structure construction phase of `construct` (lines 470–478 of the
source): compression, vertical edges, interior grid, prefix sums, Chebyshev
points and the two sorted index orderings. -/
def mkAlgState (points : List (Int × Int)) : AlgState :=
  let xs := compress_xs points
  let ys := compress_ys points
  let ve := build_vertical_edges points
  let inside := build_inside_grid xs ys ve
  let prefixSums := build_prefix_sums inside
  let cheb_points := points.map fun p => chebyshev_transform p.1 p.2
  let n := points.length
  let by_u := sort_by_key (fun i => (cheb_points.getD i (0, 0)).1) n
  let by_v := sort_by_key (fun i => (cheb_points.getD i (0, 0)).2) n
  ⟨points, xs, ys, inside, prefixSums, cheb_points, by_u, by_v⟩

/-- `is_valid_rectangle`: false for degenerate pairs (shared x or shared y);
otherwise compare the interior-cell count of the compressed bounding box
`[i1,i2) × [j1,j2)` against its total cell count. -/
def is_valid_rectangle (st : AlgState) (i j : Nat) : Bool :=
  let p1 := st.points.getD i (0, 0)
  let p2 := st.points.getD j (0, 0)
  if p1.1 = p2.1 ∨ p1.2 = p2.2 then false
  else
    let i1 := coord_index st.xs (min p1.1 p2.1)
    let i2 := coord_index st.xs (max p1.1 p2.1)
    let j1 := coord_index st.ys (min p1.2 p2.2)
    let j2 := coord_index st.ys (max p1.2 p2.2)
    let total_cells : Int := ((i2 : Int) - (i1 : Int)) * ((j2 : Int) - (j1 : Int))
    decide (count_inside i1 j1 i2 j2 st.prefixSums = total_cells)

/-- The candidate's source dimension: the u-sorted or the v-sorted ordering. -/
inductive Dim
  | u
  | v
deriving Repr, DecidableEq, Inhabited

/-- The `Candidate` dataclass: distance, canonical vertex pair `i < j`, source
dimension and the rank range `[left, right]` in that dimension's ordering. -/
structure Candidate where
  distance : Int
  i : Nat
  j : Nat
  source : Dim
  left : Nat
  right : Nat
deriving Repr, DecidableEq, Inhabited

/-- `Candidate.__lt__`: `self.distance > other.distance` (a max-heap realised
through Python's min-heap `heapq`). -/
def candidate_lt (a b : Candidate) : Bool :=
  decide (b.distance < a.distance)

/-- Python `heapq._siftdown(heap, startpos, pos)` with the moving item passed
explicitly: while `pos > startpos`, compare against the parent at
`(pos - 1) // 2`; if the item sorts below the parent, move the parent down
and continue from the parent position, else stop; finally store the item.
The structural fuel equals the starting position: `pos` strictly decreases
each iteration, so `pos` iterations always suffice, and when the fuel runs
out `pos = 0 ≤ startpos` and the zero-fuel arm coincides with the loop's
exit arm. -/
def heap_siftdown_go (startpos : Nat) (newitem : Candidate) :
    Nat → List Candidate → Nat → List Candidate
  | 0, heap, pos => heap.set pos newitem
  | fuel + 1, heap, pos =>
    if startpos < pos then
      let parentpos := (pos - 1) / 2
      let parent := heap.getD parentpos default
      if candidate_lt newitem parent then
        heap_siftdown_go startpos newitem fuel (heap.set pos parent) parentpos
      else
        heap.set pos newitem
    else
      heap.set pos newitem

/-- Entry point of `heapq._siftdown`. -/
def heap_siftdown (heap : List Candidate) (startpos pos : Nat)
    (newitem : Candidate) : List Candidate :=
  heap_siftdown_go startpos newitem pos heap pos

/-- The child chosen by Python `heapq._siftup`: the right child `2*pos+2` when
it exists and the left child does not sort strictly below it, else the left
child `2*pos+1`. -/
def siftup_child (heap : List Candidate) (pos : Nat) : Nat :=
  if 2 * pos + 2 < heap.length ∧
      ¬ candidate_lt (heap.getD (2 * pos + 1) default) (heap.getD (2 * pos + 2) default)
  then 2 * pos + 2
  else 2 * pos + 1

/-- The descent loop of Python `heapq._siftup`: repeatedly move the chosen
child up into `pos` and descend into that child until `pos` is a leaf;
returns the final position together with the rewritten list.  The structural
fuel equals the list length: `pos` strictly increases and stays below the
(`set`-invariant) length, so when the fuel runs out `pos` is a leaf and the
zero-fuel arm coincides with the loop's exit arm. -/
def heap_siftup_go : Nat → List Candidate → Nat → List Candidate × Nat
  | 0, heap, pos => (heap, pos)
  | fuel + 1, heap, pos =>
    if 2 * pos + 1 < heap.length then
      let c := siftup_child heap pos
      heap_siftup_go fuel (heap.set pos (heap.getD c default)) c
    else
      (heap, pos)

/-- Entry point of the `heapq._siftup` descent loop. -/
def heap_siftup_loop (heap : List Candidate) (pos : Nat) : List Candidate × Nat :=
  heap_siftup_go heap.length heap pos

/-- Python `heapq._siftup(heap, pos)`: remember `heap[pos]`, run the descent
loop, store the remembered item at the final position and sift it up with
`_siftdown` bounded below by the start position.  (The Python code writes the
item before calling `_siftdown`; that write is subsumed by `_siftdown`'s own
final write, since `_siftdown` never reads the slot it started from.) -/
def heap_siftup (heap : List Candidate) (pos : Nat) : List Candidate :=
  let newitem := heap.getD pos default
  let r := heap_siftup_loop heap pos
  heap_siftdown r.1 pos r.2 newitem

/-- Python `heapq.heappush`: append the item and sift it down from the last
position. -/
def heappush (heap : List Candidate) (item : Candidate) : List Candidate :=
  heap_siftdown (heap ++ [item]) 0 heap.length item

/-- Python `heapq.heappop`: pop the last element; if the heap is now empty it
is the result, otherwise it replaces the root, `_siftup` restores the heap,
and the old root is returned.  `none` models popping an empty heap (the
source never does this: the loop condition `while heap` guards every pop). -/
def heappop (heap : List Candidate) : Option (Candidate × List Candidate) :=
  match heap.getLast? with
  | none => none
  | some lastelt =>
    let rest := heap.dropLast
    if rest.isEmpty then
      some (lastelt, [])
    else
      some (rest.headD default, heap_siftup (rest.set 0 lastelt) 0)

/-- `Day09Visualization._add_candidate` (also the local `add_candidate` of
`precompute_animation_count`): if `left < right`, take the vertex indices at
the two ranks, canonicalise the pair, and push it with its true Manhattan
distance unless the pair has already been seen.  Returns the new heap; the
seen set is not modified. -/
def add_candidate (st : AlgState) (seen : List (Nat × Nat))
    (heap : List Candidate) (left right : Nat) (source : Dim)
    (sorted_arr : List Nat) : List Candidate :=
  if left < right then
    let i := sorted_arr.getD left 0
    let j := sorted_arr.getD right 0
    let pair := (min i j, max i j)
    if pair ∈ seen then heap
    else
      let dist := manhattan_distance (st.points.getD i (0, 0)) (st.points.getD j (0, 0))
      heappush heap ⟨dist, pair.1, pair.2, source, left, right⟩
  else heap

/-- `LARGE_INPUT_THRESHOLD = 100`; `is_large_input` is `n > 100`. -/
def is_large_input (st : AlgState) : Bool :=
  decide (st.points.length > 100)

/-- Whether iteration `iter` of `run_algorithm` animates its candidate.
Small inputs: the first `INTRO_ITERATIONS = 3` iterations and every
`ANIMATE_EVERY_N_FAST = 20`-th one.  Large inputs: every
`LARGE_ANIMATE_EVERY_N = 1000`-th, capped at
`MAX_ANIMATED_CANDIDATES = 100` animated candidates. -/
def should_animate (st : AlgState) (iter animatedCount : Nat) : Bool :=
  if is_large_input st then
    decide (iter % 1000 = 0) && decide (animatedCount < 100)
  else
    decide (iter ≤ 3) || decide (iter % 20 = 0)

/-- How `run_algorithm` can end: `animate_success` on a valid candidate,
`show_no_result` on heap exhaustion, or out of modelling fuel (never reached
with enough fuel; the Python loop always terminates). -/
inductive RunOutcome
  | success (c : Candidate)
  | noSolution
  | outOfFuel
deriving Repr, DecidableEq

/-- The mutable state of the `run_algorithm` loop: heap, seen set, iteration
and animation counters, plus two observation traces: the candidates processed
(popped while unseen) in order, and every invocation of `is_valid_rectangle`
the loop performs, including the extra invocation made by
`animate_candidate_check` / `animate_candidate_check_fast` on animated
iterations with non-degenerate coordinates. -/
structure RunState where
  heap : List Candidate
  seen : List (Nat × Nat)
  iteration_count : Nat
  animated_count : Nat
  trace : List Candidate
  validator_calls : List (Nat × Nat)
deriving Repr

/-- The body of `run_algorithm`'s while loop for a freshly popped unseen
candidate: mark the pair seen, bump the iteration counter, animate according
to `should_animate` (`animate_candidate_check` / `animate_candidate_check_fast`
invoke the validator once more when both coordinates differ), then validate;
on success report `true`, otherwise expand by shrinking the rank range from
either side (`_add_candidate` twice) and report `false`. -/
def process_candidate (st : AlgState) (rs : RunState) (cand : Candidate)
    (heap' : List Candidate) : RunState × Bool :=
  let seen' := (cand.i, cand.j) :: rs.seen
  let iter := rs.iteration_count + 1
  let sa := should_animate st iter rs.animated_count
  let animated' := rs.animated_count + (if sa then 1 else 0)
  let p1 := st.points.getD cand.i (0, 0)
  let p2 := st.points.getD cand.j (0, 0)
  let animCalls : List (Nat × Nat) :=
    if sa ∧ p1.1 ≠ p2.1 ∧ p1.2 ≠ p2.2 then [(cand.i, cand.j)] else []
  let rs' : RunState :=
    { heap := heap', seen := seen', iteration_count := iter,
      animated_count := animated', trace := rs.trace ++ [cand],
      validator_calls := rs.validator_calls ++ animCalls ++ [(cand.i, cand.j)] }
  if is_valid_rectangle st cand.i cand.j then
    (rs', true)
  else
    let sorted_arr := if cand.source = Dim.u then st.by_u else st.by_v
    let heap1 := add_candidate st rs'.seen rs'.heap (cand.left + 1) cand.right
      cand.source sorted_arr
    let heap2 := add_candidate st rs'.seen heap1 cand.left (cand.right - 1)
      cand.source sorted_arr
    ({ rs' with heap := heap2 }, false)

/-- The `while self.heap` loop of `run_algorithm`.  Pops a candidate; a seen
pair is skipped with no further effect; otherwise `process_candidate` runs
and the loop terminates with success exactly when the candidate validates. -/
def run_algorithm_loop (st : AlgState) : Nat → RunState → RunState × RunOutcome
  | 0, rs => (rs, .outOfFuel)
  | fuel + 1, rs =>
    match heappop rs.heap with
    | none => (rs, .noSolution)
    | some (cand, heap') =>
      if (cand.i, cand.j) ∈ rs.seen then
        run_algorithm_loop st fuel { rs with heap := heap' }
      else
        let r := process_candidate st rs cand heap'
        if r.2 then (r.1, .success cand)
        else run_algorithm_loop st fuel r.1

/-- The initial search state: `construct` pushes the two full-range candidates
`(0, n-1)` in the u and v orderings into an empty heap with an empty seen
set. -/
def initial_state (st : AlgState) : RunState :=
  let n := st.points.length
  let heap0 := add_candidate st [] [] 0 (n - 1) Dim.u st.by_u
  let heap1 := add_candidate st [] heap0 0 (n - 1) Dim.v st.by_v
  ⟨heap1, [], 0, 0, [], []⟩

/-- The whole live pipeline on a vertex list: build the session data
(`construct`) and run the search loop (`run_algorithm`). -/
def run_algorithm (points : List (Int × Int)) (fuel : Nat) :
    RunState × RunOutcome :=
  let st := mkAlgState points
  run_algorithm_loop st fuel (initial_state st)

/-- How the dry run of `precompute_animation_count` can end: `break` on a
valid pair, normal exhaustion of the local heap, or out of modelling fuel. -/
inductive DryOutcome
  | found
  | exhausted
  | outOfFuel
deriving Repr, DecidableEq

/-- The local state of `precompute_animation_count`: its own heap and seen
set, the `total_candidates` and `animated_candidates` counters, plus (as pure
observation) the processed candidates in order. -/
structure DryState where
  heap : List Candidate
  seen : List (Nat × Nat)
  total_candidates : Nat
  animated_candidates : Nat
  trace : List Candidate
deriving Repr

/-- The loop body of `precompute_animation_count` for a fresh candidate:
count it (animated when `total <= INTRO_ITERATIONS = 3` or
`total % ANIMATE_EVERY_N_FAST = 0`), `break` on a valid pair, else expand
exactly like the live loop. -/
def process_dry (st : AlgState) (ds : DryState) (cand : Candidate)
    (heap' : List Candidate) : DryState × Bool :=
  let seen' := (cand.i, cand.j) :: ds.seen
  let total := ds.total_candidates + 1
  let animated' := ds.animated_candidates +
    (if total ≤ 3 ∨ total % 20 = 0 then 1 else 0)
  let ds' : DryState :=
    { heap := heap', seen := seen', total_candidates := total,
      animated_candidates := animated', trace := ds.trace ++ [cand] }
  if is_valid_rectangle st cand.i cand.j then
    (ds', true)
  else
    let sorted_arr := if cand.source = Dim.u then st.by_u else st.by_v
    let heap1 := add_candidate st ds'.seen ds'.heap (cand.left + 1) cand.right
      cand.source sorted_arr
    let heap2 := add_candidate st ds'.seen heap1 cand.left (cand.right - 1)
      cand.source sorted_arr
    ({ ds' with heap := heap2 }, false)

/-- The `while heap` loop of `precompute_animation_count`: pop, skip seen
pairs, process fresh ones, `break` on a valid pair. -/
def precompute_loop (st : AlgState) : Nat → DryState → DryState × DryOutcome
  | 0, ds => (ds, .outOfFuel)
  | fuel + 1, ds =>
    match heappop ds.heap with
    | none => (ds, .exhausted)
    | some (cand, heap') =>
      if (cand.i, cand.j) ∈ ds.seen then
        precompute_loop st fuel { ds with heap := heap' }
      else
        let r := process_dry st ds cand heap'
        if r.2 then (r.1, .found)
        else precompute_loop st fuel r.1

/-- `precompute_animation_count` on a vertex list: fresh local heap and seen
set, the same two initial full-range candidates, then the dry-run loop. -/
def precompute_animation_count (points : List (Int × Int)) (fuel : Nat) :
    DryState × DryOutcome :=
  let st := mkAlgState points
  let n := st.points.length
  let heap0 := add_candidate st [] [] 0 (n - 1) Dim.u st.by_u
  let heap1 := add_candidate st [] heap0 0 (n - 1) Dim.v st.by_v
  precompute_loop st fuel ⟨heap1, [], 0, 0, []⟩

end Day09

namespace Day09

/-! ### Spec-side semantic definitions

`rect_recount` is the direct O(area) recount of interior cells in a half-open
rank rectangle that the spec compares `countInside` against; `box_count` is
its corner-anchored special case. -/

/-- The interior flag of grid cell `(a, b)`. -/
def interior_cell (inside : List (List Bool)) (a b : Nat) : Bool :=
  (inside.getD a []).getD b false

/-- Direct recount of interior cells in `[i1, i2) × [j1, j2)`. -/
def rect_recount (inside : List (List Bool)) (i1 j1 i2 j2 : Nat) : Int :=
  ∑ a ∈ Finset.Ico i1 i2, ∑ b ∈ Finset.Ico j1 j2,
    (if interior_cell inside a b then (1 : Int) else 0)

/-- Count of interior cells in the corner box `[0, i) × [0, j)`. -/
def box_count (inside : List (List Bool)) (i j : Nat) : Int :=
  ∑ a ∈ Finset.range i, ∑ b ∈ Finset.range j,
    (if interior_cell inside a b then (1 : Int) else 0)

/-- The polygon's boundary edges: consecutive vertex pairs, the last vertex
connecting back to the first (`points[i]` with `points[(i+1) % n]`). -/
def boundary_edges (points : List (Int × Int)) : List ((Int × Int) × (Int × Int)) :=
  points.zip (points.rotate 1)

/-- One cell update of the `build_prefix_sums` double loop. -/
def pfx_cell (inside : List (List Bool)) (i : Nat) (t : List (List Int)) (j : Nat) :
    List (List Int) :=
  set2 t (i + 1) (j + 1)
    (get2 t i (j + 1) + get2 t (i + 1) j - get2 t i j +
      (if (inside.getD i []).getD j false then 1 else 0))

/-- One row of the `build_prefix_sums` double loop. -/
def pfx_row (inside : List (List Bool)) (t : List (List Int)) (i : Nat) :
    List (List Int) :=
  (List.range ((inside.headD []).length)).foldl (pfx_cell inside i) t

/-- The in-construction description of the prefix-sum table: after `k` full
rows and `m` cells of row `k`, the zero borders, the entries of rows `1..k`
and the first `m` entries of row `k+1` hold corner-box counts, everything
else is still zero. -/
def pfx_inv (inside : List (List Bool)) (k m : Nat) (t : List (List Int)) : Prop :=
  t.length = inside.length + 1 ∧
  (∀ a, a ≤ inside.length → (t.getD a []).length = (inside.headD []).length + 1) ∧
  (∀ a b, a ≤ inside.length → b ≤ (inside.headD []).length →
    get2 t a b =
      if a = 0 ∨ b = 0 ∨ a ≤ k ∨ (a = k + 1 ∧ b ≤ m) then box_count inside a b else 0)

/-- Well-formedness of a search candidate with respect to the session state:
a canonical in-range vertex pair `i < j < n`, an in-range right rank, and the
stored distance being the true Manhattan distance of the pair.  Every
candidate the search ever pushes satisfies it. -/
def CandOK (st : AlgState) (c : Candidate) : Prop :=
  c.i < c.j ∧ c.j < st.points.length ∧ c.right < st.points.length ∧
  c.distance = manhattan_distance (st.points.getD c.i (0, 0)) (st.points.getD c.j (0, 0))

/-- Well-formedness of a sorted index array over `n` vertices: it is a
duplicate-free list of in-range vertex indices of full length, as
`sorted(range(n), key=...)` always is. -/
def ArrOK (n : Nat) (arr : List Nat) : Prop :=
  arr.length = n ∧ arr.Nodup ∧ ∀ x ∈ arr, x < n

/-- An axis-aligned square polygon, a minimal input on which the search
succeeds immediately. -/
def sqPoints : List (Int × Int) := [(0, 0), (0, 2), (2, 2), (2, 0)]

/-- A 12-vertex rectilinear cross-shaped polygon on which the search returns
a valid rectangle that is not of maximal Manhattan distance: the shared seen
set lets the v-ordering copy of a pair suppress the u-ordering expansion that
would have reached the optimum. -/
def cex_opt : List (Int × Int) :=
  [(0, 1), (1, 1), (1, 3), (2, 3), (2, 1), (3, 1), (3, -2), (2, -2), (2, -1),
   (1, -1), (1, -2), (0, -2)]

/-- A 12-vertex rectilinear polygon on which the sequence of processed
candidate distances is not monotonically non-increasing. -/
def cex_mono : List (Int × Int) :=
  [(0, 1), (1, 1), (1, 4), (2, 4), (2, 1), (3, 1), (3, -2), (2, -2), (2, -1),
   (1, -1), (1, -4), (0, -4)]

/-- A 10-vertex simple rectilinear polygon — a skyline of four side-by-side
buildings of heights 5, 1, 2 and 3 over a common baseline — on which the
frontier search exhausts its queue although valid rectangle pairs exist. -/
def skyline : List (Int × Int) :=
  [(15, 2), (20, 2), (20, 3), (29, 3), (29, 0), (-5, 0), (-5, 5), (5, 5), (5, 1), (15, 1)]

/-- C7: the Manhattan distance of two lattice points equals the Chebyshev
maximum `max |Δu| |Δv|` of their transforms `u = x + y`, `v = x - y`. -/
theorem manhattan_eq_chebyshev_max (p1 p2 : Int × Int) :
    manhattan_distance p1 p2 =
      max |(chebyshev_transform p1.1 p1.2).1 - (chebyshev_transform p2.1 p2.2).1|
        |(chebyshev_transform p1.1 p1.2).2 - (chebyshev_transform p2.1 p2.2).2| := by
  simp only [manhattan_distance, chebyshev_transform]
  rcases abs_cases (p1.1 - p2.1) with ⟨h1, h1s⟩ | ⟨h1, h1s⟩ <;>
    rcases abs_cases (p1.2 - p2.2) with ⟨h2, h2s⟩ | ⟨h2, h2s⟩ <;>
    rcases abs_cases (p1.1 + p1.2 - (p2.1 + p2.2)) with ⟨h3, h3s⟩ | ⟨h3, h3s⟩ <;>
    rcases abs_cases (p1.1 - p1.2 - (p2.1 - p2.2)) with ⟨h4, h4s⟩ | ⟨h4, h4s⟩ <;>
    rw [h1, h2, h3, h4] <;> omega

end Day09

namespace Day09

/-- Reading an index `i < n` out of `(List.range n).map f` gives `f i`. -/
theorem getD_map_range {α : Type} (n i : Nat) (f : Nat → α) (d : α) (h : i < n) :
    ((List.range n).map f).getD i d = f i := by
  rw [List.getD_eq_getElem?_getD, List.getElem?_map, List.getElem?_range h]
  rfl

/-- Counting matches of `p` among the vertical-edge triples equals counting
boundary edges that are vertical and whose triple matches `p`. -/
theorem countP_build_vertical_edges (l : List ((Int × Int) × (Int × Int)))
    (p : Int × Int × Int → Bool) :
    (l.filterMap fun pq =>
        if pq.1.1 = pq.2.1 then some (pq.1.1, min pq.1.2 pq.2.2, max pq.1.2 pq.2.2)
        else none).countP p =
      l.countP fun pq =>
        decide (pq.1.1 = pq.2.1) &&
          p (pq.1.1, min pq.1.2 pq.2.2, max pq.1.2 pq.2.2) := by
  induction l with
  | nil => rfl
  | cons a t ih =>
    by_cases h : a.1.1 = a.2.1
    · simp [List.filterMap_cons, h, List.countP_cons, ih]
    · simp [List.filterMap_cons, h, List.countP_cons, ih]

/-- C6: a cell `(i, j)` of the interior grid is marked true iff the number of
vertical boundary edges strictly to the right of `xs[i]` whose half-open
y-span `[min_y, max_y)` contains `ys[j]` is odd — the ray cast from the
cell's compressed coordinates `(xs[i], ys[j])` to +x infinity crosses the
boundary an odd number of times, the spec's criterion for the cell's centre
lying inside the polygon. -/
theorem build_inside_grid_spec (points : List (Int × Int)) (i j : Nat)
    (hi : i < (compress_xs points).length - 1)
    (hj : j < (compress_ys points).length - 1) :
    (interior_cell
        (build_inside_grid (compress_xs points) (compress_ys points)
          (build_vertical_edges points)) i j = true) ↔
      Odd ((boundary_edges points).countP fun e =>
        decide (e.1.1 = e.2.1) &&
          decide ((compress_xs points).getD i 0 < e.1.1 ∧
            min e.1.2 e.2.2 ≤ (compress_ys points).getD j 0 ∧
            (compress_ys points).getD j 0 < max e.1.2 e.2.2)) := by
  have hrow :
      interior_cell
          (build_inside_grid (compress_xs points) (compress_ys points)
            (build_vertical_edges points)) i j =
        is_cell_inside i j (compress_xs points) (compress_ys points)
          (build_vertical_edges points) := by
    unfold interior_cell build_inside_grid
    rw [getD_map_range _ _ _ _ hi, getD_map_range _ _ _ _ hj]
  rw [hrow]
  unfold is_cell_inside crossing_count build_vertical_edges boundary_edges
  simp only [countP_build_vertical_edges, decide_eq_true_iff, Nat.odd_iff]

end Day09

namespace Day09

/-- `getD` after `set` at the written (in-bounds) index. -/
theorem getD_set_self {α : Type} (l : List α) (i : Nat) (x d : α) (h : i < l.length) :
    (l.set i x).getD i d = x := by
  rw [List.getD_eq_getElem?_getD, List.getElem?_set_self h]
  rfl

/-- `getD` after `set` at a different index. -/
theorem getD_set_ne {α : Type} (l : List α) (i j : Nat) (x d : α) (h : i ≠ j) :
    (l.set i x).getD j d = l.getD j d := by
  rw [List.getD_eq_getElem?_getD, List.getElem?_set_ne h, ← List.getD_eq_getElem?_getD]

/-- Reading the freshly written entry of a 2-D table. -/
theorem get2_set2_self (t : List (List Int)) (i j : Nat) (v : Int)
    (hi : i < t.length) (hj : j < (t.getD i []).length) :
    get2 (set2 t i j v) i j = v := by
  unfold get2 set2
  rw [getD_set_self _ _ _ _ hi, getD_set_self _ _ _ _ hj]

/-- Reading any other entry of a 2-D table after a write. -/
theorem get2_set2_ne (t : List (List Int)) (i j a b : Nat) (v : Int)
    (h : i ≠ a ∨ j ≠ b) :
    get2 (set2 t i j v) a b = get2 t a b := by
  unfold get2 set2
  by_cases hia : i = a
  · subst hia
    have hjb : j ≠ b := by tauto
    by_cases hlt : i < t.length
    · rw [getD_set_self _ _ _ _ hlt, getD_set_ne _ _ _ _ _ hjb]
    · rw [List.set_eq_of_length_le (by omega)]
  · rw [getD_set_ne _ _ _ _ _ hia]

/-- `set2` preserves the outer length. -/
theorem length_set2 (t : List (List Int)) (i j : Nat) (v : Int) :
    (set2 t i j v).length = t.length := by
  unfold set2
  exact List.length_set ..

/-- `set2` preserves every row length. -/
theorem row_length_set2 (t : List (List Int)) (i j a : Nat) (v : Int) :
    ((set2 t i j v).getD a []).length = (t.getD a []).length := by
  unfold set2
  by_cases hia : i = a
  · subst hia
    by_cases hlt : i < t.length
    · rw [getD_set_self _ _ _ _ hlt, List.length_set]
    · rw [List.set_eq_of_length_le (by omega)]
  · rw [getD_set_ne _ _ _ _ _ hia]

/-- The inclusion–exclusion recurrence of the corner-box count, mirroring the
update the Python double loop performs. -/
theorem box_count_succ_succ (inside : List (List Bool)) (i j : Nat) :
    box_count inside (i + 1) (j + 1) =
      box_count inside i (j + 1) + box_count inside (i + 1) j - box_count inside i j +
        (if interior_cell inside i j then (1 : Int) else 0) := by
  unfold box_count
  simp only [Finset.sum_range_succ, Finset.sum_add_distrib]
  ring

/-- Generic invariant lemma for a left fold over `List.range n`. -/
theorem foldl_range_inv {α : Type} (P : Nat → α → Prop) (f : α → Nat → α) (n : Nat) (a : α)
    (h0 : P 0 a) (hs : ∀ k x, k < n → P k x → P (k + 1) (f x k)) :
    P n ((List.range n).foldl f a) := by
  induction n with
  | zero => simpa using h0
  | succ m ih =>
    rw [List.range_succ, List.foldl_append]
    exact hs m _ (Nat.lt_succ_self m) (ih (fun k x hk hx => hs k x (Nat.lt_succ_of_lt hk) hx))

/-- `build_prefix_sums` is the nested fold of `pfx_row` / `pfx_cell`. -/
theorem build_prefix_sums_eq_fold (inside : List (List Bool)) :
    build_prefix_sums inside =
      (List.range inside.length).foldl (pfx_row inside)
        (List.replicate (inside.length + 1)
          (List.replicate ((inside.headD []).length + 1) 0)) := rfl

/-- A cell update extends the invariant by one cell. -/
theorem pfx_cell_inv (inside : List (List Bool)) (k m : Nat) (t : List (List Int))
    (hk : k < inside.length) (hm : m < (inside.headD []).length)
    (h : pfx_inv inside k m t) :
    pfx_inv inside k (m + 1) (pfx_cell inside k t m) := by
  obtain ⟨hlen, hrow, hval⟩ := h
  have hkt : k + 1 < t.length := by omega
  have hmt : m + 1 < ((t.getD (k + 1) []).length) := by
    rw [hrow (k + 1) (by omega)]
    omega
  refine ⟨?_, ?_, ?_⟩
  · rw [pfx_cell, length_set2, hlen]
  · intro a ha
    rw [pfx_cell, row_length_set2]
    exact hrow a ha
  · intro a b ha hb
    by_cases hab : a = k + 1 ∧ b = m + 1
    · obtain ⟨ha1, hb1⟩ := hab
      subst ha1
      subst hb1
      have e1 : get2 t k (m + 1) = box_count inside k (m + 1) := by
        rw [hval k (m + 1) (by omega) hb, if_pos (by omega)]
      have e2 : get2 t (k + 1) m = box_count inside (k + 1) m := by
        rw [hval (k + 1) m ha (by omega), if_pos (by omega)]
      have e3 : get2 t k m = box_count inside k m := by
        rw [hval k m (by omega) (by omega), if_pos (by omega)]
      rw [pfx_cell, get2_set2_self _ _ _ _ hkt hmt, e1, e2, e3]
      have hco : (k + 1 = 0 ∨ m + 1 = 0 ∨ k + 1 ≤ k ∨ (k + 1 = k + 1 ∧ m + 1 ≤ m + 1)) := by
        omega
      rw [if_pos hco, box_count_succ_succ]
      unfold interior_cell
      ring
    · have hne : k + 1 ≠ a ∨ m + 1 ≠ b := by tauto
      rw [pfx_cell, get2_set2_ne _ _ _ _ _ _ hne]
      rw [hval a b ha hb]
      exact if_congr (by omega) rfl rfl

/-- A full row of updates advances the row counter of the invariant. -/
theorem pfx_row_inv (inside : List (List Bool)) (k : Nat) (t : List (List Int))
    (hk : k < inside.length) (h : pfx_inv inside k 0 t) :
    pfx_inv inside (k + 1) 0 (pfx_row inside t k) := by
  have main : pfx_inv inside k ((inside.headD []).length) (pfx_row inside t k) := by
    unfold pfx_row
    exact foldl_range_inv (fun m x => pfx_inv inside k m x) (pfx_cell inside k) _ t h
      (fun m x hm hx => pfx_cell_inv inside k m x hk hm hx)
  obtain ⟨h1, h2, h3⟩ := main
  refine ⟨h1, h2, ?_⟩
  intro a b ha hb
  rw [h3 a b ha hb]
  exact if_congr (by omega) rfl rfl

/-- The invariant holds for the zero-initialised table. -/
theorem pfx_inv_init (inside : List (List Bool)) :
    pfx_inv inside 0 0
      (List.replicate (inside.length + 1)
        (List.replicate ((inside.headD []).length + 1) 0)) := by
  have hrep : ∀ (n i : Nat) (x d : List Int), i < n → (List.replicate n x).getD i d = x := by
    intro n i x d h
    rw [List.getD_eq_getElem?_getD, List.getElem?_replicate, if_pos h]
    rfl
  have hrep2 : ∀ (n i : Nat) (x : Int) (d : Int), i < n → (List.replicate n x).getD i d = x := by
    intro n i x d h
    rw [List.getD_eq_getElem?_getD, List.getElem?_replicate, if_pos h]
    rfl
  have hget : ∀ a b : Nat, a ≤ inside.length → b ≤ (inside.headD []).length →
      get2 (List.replicate (inside.length + 1)
        (List.replicate ((inside.headD []).length + 1) (0 : Int))) a b = 0 := by
    intro a b ha hb
    unfold get2
    rw [hrep _ _ _ _ (by omega), hrep2 _ _ _ _ (by omega)]
  refine ⟨by simp, ?_, ?_⟩
  · intro a ha
    rw [hrep _ _ _ _ (by omega)]
    simp
  · intro a b ha hb
    rw [hget a b ha hb]
    by_cases hc : a = 0 ∨ b = 0 ∨ a ≤ 0 ∧ True
    · rw [if_congr (Iff.rfl) rfl rfl]
      by_cases h0 : a = 0 ∨ b = 0 ∨ a ≤ 0 ∨ (a = 0 + 1 ∧ b ≤ 0)
      · rw [if_pos h0]
        unfold box_count
        rcases h0 with h0 | h0 | h0 | h0
        · subst h0; simp
        · subst h0; simp
        · have : a = 0 := by omega
          subst this; simp
        · obtain ⟨h1, h2⟩ := h0
          have : b = 0 := by omega
          subst this; simp
      · rw [if_neg h0]
    · by_cases h0 : a = 0 ∨ b = 0 ∨ a ≤ 0 ∨ (a = 0 + 1 ∧ b ≤ 0)
      · rw [if_pos h0]
        unfold box_count
        rcases h0 with h0 | h0 | h0 | h0
        · subst h0; simp
        · subst h0; simp
        · have : a = 0 := by omega
          subst this; simp
        · obtain ⟨h1, h2⟩ := h0
          have : b = 0 := by omega
          subst this; simp
      · rw [if_neg h0]

/-- Every in-range entry of the finished table is the corner-box count of the
interior grid: `prefix[i][j]` counts the interior cells of `[0,i) × [0,j)`. -/
theorem build_prefix_sums_get2 (inside : List (List Bool)) (a b : Nat)
    (ha : a ≤ inside.length) (hb : b ≤ (inside.headD []).length) :
    get2 (build_prefix_sums inside) a b = box_count inside a b := by
  have hfold : pfx_inv inside inside.length 0 (build_prefix_sums inside) := by
    rw [build_prefix_sums_eq_fold]
    exact foldl_range_inv (fun k x => pfx_inv inside k 0 x) (pfx_row inside) _ _
      (pfx_inv_init inside) (fun k x hk hx => pfx_row_inv inside k x hk hx)
  obtain ⟨_, _, h3⟩ := hfold
  rw [h3 a b ha hb, if_pos (by omega)]

/-- C5: on every grid, `count_inside` over the table built by
`build_prefix_sums` equals the direct recount of interior cells in the
half-open rank rectangle `[i1,i2) × [j1,j2)`. -/
theorem count_inside_eq_recount (inside : List (List Bool)) (i1 j1 i2 j2 : Nat)
    (h1 : i1 ≤ i2) (h2 : i2 ≤ inside.length) (h3 : j1 ≤ j2)
    (h4 : j2 ≤ (inside.headD []).length) :
    count_inside i1 j1 i2 j2 (build_prefix_sums inside) =
      rect_recount inside i1 j1 i2 j2 := by
  unfold count_inside rect_recount
  rw [build_prefix_sums_get2 inside i2 j2 h2 h4,
    build_prefix_sums_get2 inside i1 j2 (le_trans h1 h2) h4,
    build_prefix_sums_get2 inside i2 j1 h2 (le_trans h3 h4),
    build_prefix_sums_get2 inside i1 j1 (le_trans h1 h2) (le_trans h3 h4)]
  have einner : ∀ a : Nat,
      (∑ b ∈ Finset.Ico j1 j2, (if interior_cell inside a b then (1 : Int) else 0)) =
        (∑ b ∈ Finset.range j2, (if interior_cell inside a b then (1 : Int) else 0)) -
          (∑ b ∈ Finset.range j1, (if interior_cell inside a b then (1 : Int) else 0)) :=
    fun a => Finset.sum_Ico_eq_sub _ h3
  have houter :
      (∑ a ∈ Finset.Ico i1 i2, ∑ b ∈ Finset.Ico j1 j2,
          (if interior_cell inside a b then (1 : Int) else 0)) =
        box_count inside i2 j2 - box_count inside i1 j2 -
          (box_count inside i2 j1 - box_count inside i1 j1) := by
    simp only [einner]
    rw [Finset.sum_sub_distrib, Finset.sum_Ico_eq_sub _ h1, Finset.sum_Ico_eq_sub _ h1]
    unfold box_count
    ring
  rw [houter]
  ring

end Day09

namespace Day09

/-- `sortedDistinct` is sorted. -/
theorem sortedDistinct_sorted (l : List Int) : (sortedDistinct l).Sorted (· ≤ ·) :=
  List.sorted_insertionSort _ _

/-- `sortedDistinct` has no duplicates. -/
theorem sortedDistinct_nodup (l : List Int) : (sortedDistinct l).Nodup :=
  ((List.perm_insertionSort _ _).nodup_iff).2 (List.nodup_dedup l)

/-- Membership in `sortedDistinct` is membership in the original list. -/
theorem mem_sortedDistinct (l : List Int) (v : Int) : v ∈ sortedDistinct l ↔ v ∈ l := by
  unfold sortedDistinct
  rw [(List.perm_insertionSort _ _).mem_iff, List.mem_dedup]

/-- `coord_index` of a member is in range. -/
theorem coord_index_lt (xs : List Int) (v : Int) (h : v ∈ xs) :
    coord_index xs v < xs.length :=
  List.indexOf_lt_length.2 h

/-- On a sorted duplicate-free list, `coord_index` is monotone over members. -/
theorem coord_index_mono (xs : List Int) (hs : xs.Sorted (· ≤ ·))
    (a b : Int) (ha : a ∈ xs) (hb : b ∈ xs) (hab : a ≤ b) :
    coord_index xs a ≤ coord_index xs b := by
  by_contra hcon
  push_neg at hcon
  unfold coord_index at hcon
  have hia : xs.indexOf a < xs.length := List.indexOf_lt_length.2 ha
  have hib : xs.indexOf b < xs.length := List.indexOf_lt_length.2 hb
  have hle : xs.get ⟨xs.indexOf b, hib⟩ ≤ xs.get ⟨xs.indexOf a, hia⟩ :=
    hs.rel_get_of_lt (Fin.mk_lt_mk.2 hcon)
  rw [List.indexOf_get, List.indexOf_get] at hle
  have hab2 : a = b := le_antisymm hab hle
  subst hab2
  exact absurd hcon (lt_irrefl _)

/-- The element `getD` reads at an in-range index is a member. -/
theorem getD_mem {α : Type} (l : List α) (i : Nat) (d : α) (h : i < l.length) :
    l.getD i d ∈ l := by
  rw [List.getD_eq_getElem?_getD, List.getElem?_eq_getElem h]
  simp only [Option.getD_some]
  exact List.getElem_mem h

/-- The interior grid has one row per x-cell. -/
theorem build_inside_grid_length (xs ys : List Int) (ve : List (Int × Int × Int)) :
    (build_inside_grid xs ys ve).length = xs.length - 1 := by
  unfold build_inside_grid
  rw [List.length_map, List.length_range]

/-- Every row of a nonempty interior grid has one entry per y-cell. -/
theorem build_inside_grid_head_length (xs ys : List Int) (ve : List (Int × Int × Int))
    (h : 0 < xs.length - 1) :
    ((build_inside_grid xs ys ve).headD []).length = ys.length - 1 := by
  unfold build_inside_grid
  obtain ⟨m, hm⟩ : ∃ m, xs.length - 1 = m + 1 := ⟨xs.length - 2, by omega⟩
  rw [hm, List.range_succ_eq_map, List.map_cons, List.headD_cons, List.length_map,
    List.length_range]

/-- A list with two distinct members has length at least two. -/
theorem two_le_length_of_mem_ne {α : Type} (l : List α) (a b : α)
    (ha : a ∈ l) (hb : b ∈ l) (hne : a ≠ b) : 2 ≤ l.length := by
  rcases l with _ | ⟨x, _ | ⟨y, t⟩⟩
  · cases ha
  · simp only [List.mem_singleton] at ha hb
    exact absurd (ha.trans hb.symm) hne
  · simp [List.length_cons]

/-- Projection lemmas for `mkAlgState`. -/
theorem mkAlgState_points (points : List (Int × Int)) :
    (mkAlgState points).points = points := rfl

theorem mkAlgState_xs (points : List (Int × Int)) :
    (mkAlgState points).xs = compress_xs points := rfl

theorem mkAlgState_ys (points : List (Int × Int)) :
    (mkAlgState points).ys = compress_ys points := rfl

theorem mkAlgState_inside (points : List (Int × Int)) :
    (mkAlgState points).inside =
      build_inside_grid (compress_xs points) (compress_ys points)
        (build_vertical_edges points) := rfl

theorem mkAlgState_prefixSums (points : List (Int × Int)) :
    (mkAlgState points).prefixSums =
      build_prefix_sums
        (build_inside_grid (compress_xs points) (compress_ys points)
          (build_vertical_edges points)) := rfl

end Day09

namespace Day09

/-- C4: for vertex indices `i, j`, the validator returns false when the two
vertices share an x or a y coordinate; otherwise it returns true exactly when
the number of interior cells in the compressed rank bounding box
`[i1,i2) × [j1,j2)` spanned by the two points' min/max coordinates (a direct
recount, by C5 equal to the `countInside` query the code performs) equals the
box's total cell count `(i2-i1) * (j2-j1)`. -/
theorem is_valid_rectangle_spec (points : List (Int × Int)) (i j : Nat)
    (hi : i < points.length) (hj : j < points.length) :
    is_valid_rectangle (mkAlgState points) i j = true ↔
      ((points.getD i (0, 0)).1 ≠ (points.getD j (0, 0)).1 ∧
        (points.getD i (0, 0)).2 ≠ (points.getD j (0, 0)).2 ∧
        rect_recount
            (build_inside_grid (compress_xs points) (compress_ys points)
              (build_vertical_edges points))
            (coord_index (compress_xs points)
              (min (points.getD i (0, 0)).1 (points.getD j (0, 0)).1))
            (coord_index (compress_ys points)
              (min (points.getD i (0, 0)).2 (points.getD j (0, 0)).2))
            (coord_index (compress_xs points)
              (max (points.getD i (0, 0)).1 (points.getD j (0, 0)).1))
            (coord_index (compress_ys points)
              (max (points.getD i (0, 0)).2 (points.getD j (0, 0)).2)) =
          ((coord_index (compress_xs points)
                (max (points.getD i (0, 0)).1 (points.getD j (0, 0)).1) : Int) -
              (coord_index (compress_xs points)
                (min (points.getD i (0, 0)).1 (points.getD j (0, 0)).1) : Int)) *
            ((coord_index (compress_ys points)
                (max (points.getD i (0, 0)).2 (points.getD j (0, 0)).2) : Int) -
              (coord_index (compress_ys points)
                (min (points.getD i (0, 0)).2 (points.getD j (0, 0)).2) : Int))) := by
  have hp1 : points.getD i (0, 0) ∈ points := getD_mem points i (0, 0) hi
  have hp2 : points.getD j (0, 0) ∈ points := getD_mem points j (0, 0) hj
  simp only [is_valid_rectangle, mkAlgState_points, mkAlgState_xs, mkAlgState_ys,
    mkAlgState_prefixSums]
  by_cases hdeg : (points.getD i (0, 0)).1 = (points.getD j (0, 0)).1 ∨
      (points.getD i (0, 0)).2 = (points.getD j (0, 0)).2
  · rw [if_pos hdeg]
    simp only [Bool.false_eq_true, false_iff]
    rintro ⟨h1, h2, -⟩
    tauto
  · rw [if_neg hdeg]
    push_neg at hdeg
    obtain ⟨hx, hy⟩ := hdeg
    have hx1 : (points.getD i (0, 0)).1 ∈ compress_xs points :=
      (mem_sortedDistinct _ _).2 (List.mem_map_of_mem _ hp1)
    have hx2 : (points.getD j (0, 0)).1 ∈ compress_xs points :=
      (mem_sortedDistinct _ _).2 (List.mem_map_of_mem _ hp2)
    have hy1 : (points.getD i (0, 0)).2 ∈ compress_ys points :=
      (mem_sortedDistinct _ _).2 (List.mem_map_of_mem _ hp1)
    have hy2 : (points.getD j (0, 0)).2 ∈ compress_ys points :=
      (mem_sortedDistinct _ _).2 (List.mem_map_of_mem _ hp2)
    have hminx : min (points.getD i (0, 0)).1 (points.getD j (0, 0)).1 ∈ compress_xs points := by
      rcases min_choice (points.getD i (0, 0)).1 (points.getD j (0, 0)).1 with h | h <;>
        rw [h] <;> assumption
    have hmaxx : max (points.getD i (0, 0)).1 (points.getD j (0, 0)).1 ∈ compress_xs points := by
      rcases max_choice (points.getD i (0, 0)).1 (points.getD j (0, 0)).1 with h | h <;>
        rw [h] <;> assumption
    have hminy : min (points.getD i (0, 0)).2 (points.getD j (0, 0)).2 ∈ compress_ys points := by
      rcases min_choice (points.getD i (0, 0)).2 (points.getD j (0, 0)).2 with h | h <;>
        rw [h] <;> assumption
    have hmaxy : max (points.getD i (0, 0)).2 (points.getD j (0, 0)).2 ∈ compress_ys points := by
      rcases max_choice (points.getD i (0, 0)).2 (points.getD j (0, 0)).2 with h | h <;>
        rw [h] <;> assumption
    have hxlen : 2 ≤ (compress_xs points).length :=
      two_le_length_of_mem_ne _ _ _ hx1 hx2 hx
    have hylen : 2 ≤ (compress_ys points).length :=
      two_le_length_of_mem_ne _ _ _ hy1 hy2 hy
    have h1 : coord_index (compress_xs points)
          (min (points.getD i (0, 0)).1 (points.getD j (0, 0)).1) ≤
        coord_index (compress_xs points)
          (max (points.getD i (0, 0)).1 (points.getD j (0, 0)).1) :=
      coord_index_mono _ (sortedDistinct_sorted _) _ _ hminx hmaxx (min_le_max)
    have h3 : coord_index (compress_ys points)
          (min (points.getD i (0, 0)).2 (points.getD j (0, 0)).2) ≤
        coord_index (compress_ys points)
          (max (points.getD i (0, 0)).2 (points.getD j (0, 0)).2) :=
      coord_index_mono _ (sortedDistinct_sorted _) _ _ hminy hmaxy (min_le_max)
    have h2 : coord_index (compress_xs points)
          (max (points.getD i (0, 0)).1 (points.getD j (0, 0)).1) ≤
        (build_inside_grid (compress_xs points) (compress_ys points)
          (build_vertical_edges points)).length := by
      rw [build_inside_grid_length]
      have := coord_index_lt _ _ hmaxx
      omega
    have h4 : coord_index (compress_ys points)
          (max (points.getD i (0, 0)).2 (points.getD j (0, 0)).2) ≤
        ((build_inside_grid (compress_xs points) (compress_ys points)
          (build_vertical_edges points)).headD []).length := by
      rw [build_inside_grid_head_length _ _ _ (by omega)]
      have := coord_index_lt _ _ hmaxy
      omega
    rw [decide_eq_true_iff, count_inside_eq_recount _ _ _ _ _ h1 h2 h3 h4]
    simp only [hx, hy, ne_eq, not_false_eq_true, true_and]

end Day09

namespace Day09

/-- Witness for C5 on a concrete 2×2 grid. -/
theorem count_inside_eq_recount_witness :
    (0 : Nat) ≤ 2 ∧ 2 ≤ ([[true, false], [false, true]] : List (List Bool)).length ∧
      count_inside 0 0 2 2 (build_prefix_sums [[true, false], [false, true]]) =
        rect_recount [[true, false], [false, true]] 0 0 2 2 :=
  ⟨by decide, by decide,
    count_inside_eq_recount [[true, false], [false, true]] 0 0 2 2
      (by decide) (by decide) (by decide) (by decide)⟩

/-- Witness for C4 on the unit-square polygon at vertex pair (0, 2). -/
theorem is_valid_rectangle_spec_witness :
    (0 : Nat) < ([(0, 0), (4, 0), (4, 4), (0, 4)] : List (Int × Int)).length ∧
      (2 : Nat) < ([(0, 0), (4, 0), (4, 4), (0, 4)] : List (Int × Int)).length ∧
      (is_valid_rectangle (mkAlgState [(0, 0), (4, 0), (4, 4), (0, 4)]) 0 2 = true ↔
        ((([(0, 0), (4, 0), (4, 4), (0, 4)] : List (Int × Int)).getD 0 (0, 0)).1 ≠
            (([(0, 0), (4, 0), (4, 4), (0, 4)] : List (Int × Int)).getD 2 (0, 0)).1 ∧
          (([(0, 0), (4, 0), (4, 4), (0, 4)] : List (Int × Int)).getD 0 (0, 0)).2 ≠
            (([(0, 0), (4, 0), (4, 4), (0, 4)] : List (Int × Int)).getD 2 (0, 0)).2 ∧
          rect_recount
              (build_inside_grid (compress_xs [(0, 0), (4, 0), (4, 4), (0, 4)])
                (compress_ys [(0, 0), (4, 0), (4, 4), (0, 4)])
                (build_vertical_edges [(0, 0), (4, 0), (4, 4), (0, 4)]))
              (coord_index (compress_xs [(0, 0), (4, 0), (4, 4), (0, 4)])
                (min (([(0, 0), (4, 0), (4, 4), (0, 4)] : List (Int × Int)).getD 0 (0, 0)).1
                  (([(0, 0), (4, 0), (4, 4), (0, 4)] : List (Int × Int)).getD 2 (0, 0)).1))
              (coord_index (compress_ys [(0, 0), (4, 0), (4, 4), (0, 4)])
                (min (([(0, 0), (4, 0), (4, 4), (0, 4)] : List (Int × Int)).getD 0 (0, 0)).2
                  (([(0, 0), (4, 0), (4, 4), (0, 4)] : List (Int × Int)).getD 2 (0, 0)).2))
              (coord_index (compress_xs [(0, 0), (4, 0), (4, 4), (0, 4)])
                (max (([(0, 0), (4, 0), (4, 4), (0, 4)] : List (Int × Int)).getD 0 (0, 0)).1
                  (([(0, 0), (4, 0), (4, 4), (0, 4)] : List (Int × Int)).getD 2 (0, 0)).1))
              (coord_index (compress_ys [(0, 0), (4, 0), (4, 4), (0, 4)])
                (max (([(0, 0), (4, 0), (4, 4), (0, 4)] : List (Int × Int)).getD 0 (0, 0)).2
                  (([(0, 0), (4, 0), (4, 4), (0, 4)] : List (Int × Int)).getD 2 (0, 0)).2)) =
            ((coord_index (compress_xs [(0, 0), (4, 0), (4, 4), (0, 4)])
                  (max (([(0, 0), (4, 0), (4, 4), (0, 4)] : List (Int × Int)).getD 0 (0, 0)).1
                    (([(0, 0), (4, 0), (4, 4), (0, 4)] : List (Int × Int)).getD 2 (0, 0)).1) : Int) -
                (coord_index (compress_xs [(0, 0), (4, 0), (4, 4), (0, 4)])
                  (min (([(0, 0), (4, 0), (4, 4), (0, 4)] : List (Int × Int)).getD 0 (0, 0)).1
                    (([(0, 0), (4, 0), (4, 4), (0, 4)] : List (Int × Int)).getD 2 (0, 0)).1) : Int)) *
              ((coord_index (compress_ys [(0, 0), (4, 0), (4, 4), (0, 4)])
                  (max (([(0, 0), (4, 0), (4, 4), (0, 4)] : List (Int × Int)).getD 0 (0, 0)).2
                    (([(0, 0), (4, 0), (4, 4), (0, 4)] : List (Int × Int)).getD 2 (0, 0)).2) : Int) -
                (coord_index (compress_ys [(0, 0), (4, 0), (4, 4), (0, 4)])
                  (min (([(0, 0), (4, 0), (4, 4), (0, 4)] : List (Int × Int)).getD 0 (0, 0)).2
                    (([(0, 0), (4, 0), (4, 4), (0, 4)] : List (Int × Int)).getD 2 (0, 0)).2) : Int)))) :=
  ⟨by decide, by decide,
    is_valid_rectangle_spec [(0, 0), (4, 0), (4, 4), (0, 4)] 0 2 (by decide) (by decide)⟩

/-- Witness for C6 on the unit-square polygon at cell (0, 0). -/
theorem build_inside_grid_spec_witness :
    (0 : Nat) < (compress_xs [(0, 0), (4, 0), (4, 4), (0, 4)]).length - 1 ∧
      ((interior_cell
          (build_inside_grid (compress_xs [(0, 0), (4, 0), (4, 4), (0, 4)])
            (compress_ys [(0, 0), (4, 0), (4, 4), (0, 4)])
            (build_vertical_edges [(0, 0), (4, 0), (4, 4), (0, 4)])) 0 0 = true) ↔
        Odd ((boundary_edges [(0, 0), (4, 0), (4, 4), (0, 4)]).countP fun e =>
          decide (e.1.1 = e.2.1) &&
            decide ((compress_xs [(0, 0), (4, 0), (4, 4), (0, 4)]).getD 0 0 < e.1.1 ∧
              min e.1.2 e.2.2 ≤ (compress_ys [(0, 0), (4, 0), (4, 4), (0, 4)]).getD 0 0 ∧
              (compress_ys [(0, 0), (4, 0), (4, 4), (0, 4)]).getD 0 0 < max e.1.2 e.2.2))) :=
  ⟨by decide,
    build_inside_grid_spec [(0, 0), (4, 0), (4, 4), (0, 4)] 0 0 (by decide) (by decide)⟩

end Day09

namespace Day09

/-- `process_candidate` appends the candidate to the trace in both outcomes. -/
theorem process_candidate_trace (st : AlgState) (rs : RunState) (cand : Candidate)
    (heap' : List Candidate) :
    (process_candidate st rs cand heap').1.trace = rs.trace ++ [cand] := by
  unfold process_candidate
  split <;> rfl

/-- `process_candidate` marks the candidate's pair seen in both outcomes. -/
theorem process_candidate_seen (st : AlgState) (rs : RunState) (cand : Candidate)
    (heap' : List Candidate) :
    (process_candidate st rs cand heap').1.seen = (cand.i, cand.j) :: rs.seen := by
  unfold process_candidate
  split <;> rfl

/-- `process_candidate` reports success exactly when the candidate validates. -/
theorem process_candidate_flag (st : AlgState) (rs : RunState) (cand : Candidate)
    (heap' : List Candidate) :
    (process_candidate st rs cand heap').2 = is_valid_rectangle st cand.i cand.j := by
  unfold process_candidate
  split
  · rename_i h
    exact h.symm
  · rename_i h
    simp only [Bool.not_eq_true] at h
    exact h.symm

/-- In every run, the trace of processed candidates never repeats a canonical
pair: processed pairs are recorded in the seen set, and a candidate is only
processed while its pair is unseen. -/
theorem run_algorithm_loop_trace_nodup (st : AlgState) :
    ∀ (fuel : Nat) (rs : RunState),
      (∀ p ∈ rs.trace.map (fun c => (c.i, c.j)), p ∈ rs.seen) →
      (rs.trace.map fun c => (c.i, c.j)).Nodup →
      ((run_algorithm_loop st fuel rs).1.trace.map fun c => (c.i, c.j)).Nodup
  | 0, _, _, hnd => hnd
  | fuel + 1, rs, hsub, hnd => by
    simp only [run_algorithm_loop]
    split
    · exact hnd
    · rename_i cand heap' hpop
      split
      · exact run_algorithm_loop_trace_nodup st fuel _ hsub hnd
      · rename_i hseen
        have hfresh : (cand.i, cand.j) ∉ rs.trace.map fun c => (c.i, c.j) := by
          intro hmem
          exact hseen (hsub _ hmem)
        have htr : ((process_candidate st rs cand heap').1.trace.map
            fun c => (c.i, c.j)).Nodup := by
          rw [process_candidate_trace, List.map_append]
          simp only [List.map_cons, List.map_nil]
          rw [List.nodup_append]
          exact ⟨hnd, List.nodup_singleton _, by simpa using hfresh⟩
        have hsub2 : ∀ p ∈ (process_candidate st rs cand heap').1.trace.map
            (fun c => (c.i, c.j)), p ∈ (process_candidate st rs cand heap').1.seen := by
          rw [process_candidate_trace, process_candidate_seen, List.map_append]
          intro p hp
          rcases List.mem_append.1 hp with hp | hp
          · exact List.mem_cons_of_mem _ (hsub p hp)
          · simp only [List.map_cons, List.map_nil, List.mem_singleton] at hp
            subst hp
            exact List.mem_cons_self _ _
        split
        · exact htr
        · exact run_algorithm_loop_trace_nodup st fuel _ hsub2 htr

/-- C8 (amended): over a whole run, each canonical pair is processed — popped
fresh, marked seen and checked by the main loop — at most once. -/
theorem run_algorithm_processes_pairs_once (points : List (Int × Int)) (fuel : Nat) :
    ((run_algorithm points fuel).1.trace.map fun c => (c.i, c.j)).Nodup := by
  unfold run_algorithm
  exact run_algorithm_loop_trace_nodup _ fuel _ (by intro p hp; simp [initial_state] at hp)
    (by simp [initial_state])

/-- Witness for the amended C8 on the unit-square polygon. -/
theorem run_algorithm_processes_pairs_once_witness :
    (((run_algorithm [(0, 0), (4, 0), (4, 4), (0, 4)] 8).1.trace.map
      fun c => (c.i, c.j)).Nodup) :=
  run_algorithm_processes_pairs_once [(0, 0), (4, 0), (4, 4), (0, 4)] 8

/-- C8 counterexample: on the unit-square polygon the animated first iteration
invokes `is_valid_rectangle` for pair `(0, 2)` inside `animate_candidate_check`
and then again in the loop's own validity check, so the validity check runs
twice for one canonical pair in one run. -/
theorem run_algorithm_validator_called_twice :
    (run_algorithm [(0, 0), (4, 0), (4, 4), (0, 4)] 8).1.validator_calls =
        [(0, 2), (0, 2)] ∧
      ¬ (run_algorithm [(0, 0), (4, 0), (4, 4), (0, 4)] 8).1.validator_calls.Nodup := by
  constructor
  · decide
  · intro h
    rw [show (run_algorithm [(0, 0), (4, 0), (4, 4), (0, 4)] 8).1.validator_calls =
      [(0, 2), (0, 2)] by decide] at h
    simp at h

end Day09

namespace Day09

/-- `process_dry` appends the candidate to the dry trace in both outcomes. -/
theorem process_dry_trace (st : AlgState) (ds : DryState) (cand : Candidate)
    (heap' : List Candidate) :
    (process_dry st ds cand heap').1.trace = ds.trace ++ [cand] := by
  unfold process_dry
  split <;> rfl

/-- `process_dry` marks the candidate's pair seen in both outcomes. -/
theorem process_dry_seen (st : AlgState) (ds : DryState) (cand : Candidate)
    (heap' : List Candidate) :
    (process_dry st ds cand heap').1.seen = (cand.i, cand.j) :: ds.seen := by
  unfold process_dry
  split <;> rfl

/-- `process_dry` reports a break exactly when the candidate validates. -/
theorem process_dry_flag (st : AlgState) (ds : DryState) (cand : Candidate)
    (heap' : List Candidate) :
    (process_dry st ds cand heap').2 = is_valid_rectangle st cand.i cand.j := by
  unfold process_dry
  split
  · rename_i h
    exact h.symm
  · rename_i h
    simp only [Bool.not_eq_true] at h
    exact h.symm

/-- One fresh candidate is handled identically by the dry and the live loop
bodies: same resulting heap, seen set, processed trace, candidate counter and
validity verdict. -/
theorem process_lockstep (st : AlgState) (ds : DryState) (rs : RunState)
    (cand : Candidate) (heap' : List Candidate)
    (hsn : ds.seen = rs.seen) (htr : ds.trace = rs.trace)
    (htot : ds.total_candidates = rs.iteration_count) :
    (process_dry st ds cand heap').1.heap = (process_candidate st rs cand heap').1.heap ∧
    (process_dry st ds cand heap').1.seen = (process_candidate st rs cand heap').1.seen ∧
    (process_dry st ds cand heap').1.trace = (process_candidate st rs cand heap').1.trace ∧
    (process_dry st ds cand heap').1.total_candidates =
      (process_candidate st rs cand heap').1.iteration_count ∧
    (process_dry st ds cand heap').2 = (process_candidate st rs cand heap').2 := by
  unfold process_dry process_candidate
  by_cases hval : is_valid_rectangle st cand.i cand.j
  · rw [if_pos hval, if_pos hval]
    exact ⟨rfl, by simp [hsn], by simp [htr], by simp [htot], rfl⟩
  · rw [if_neg hval, if_neg hval]
    exact ⟨by simp [hsn], by simp [hsn], by simp [htr], by simp [htot], rfl⟩

/-- The dry-run loop of `precompute_animation_count` and the live loop of
`run_algorithm` stay in lockstep from equal core states: same heap and seen
evolution, same processed trace, equal counters, and matching terminal
outcomes. -/
theorem precompute_loop_lockstep (st : AlgState) :
    ∀ (fuel : Nat) (ds : DryState) (rs : RunState),
      ds.heap = rs.heap → ds.seen = rs.seen → ds.trace = rs.trace →
      ds.total_candidates = rs.iteration_count →
      (precompute_loop st fuel ds).1.trace = (run_algorithm_loop st fuel rs).1.trace ∧
      (precompute_loop st fuel ds).1.total_candidates =
        (run_algorithm_loop st fuel rs).1.iteration_count ∧
      ((precompute_loop st fuel ds).2 = DryOutcome.found ↔
        ∃ c, (run_algorithm_loop st fuel rs).2 = RunOutcome.success c) ∧
      ((precompute_loop st fuel ds).2 = DryOutcome.exhausted ↔
        (run_algorithm_loop st fuel rs).2 = RunOutcome.noSolution)
  | 0, ds, rs, _, _, htr, htot => by
    refine ⟨htr, htot, ?_, ?_⟩ <;> simp [precompute_loop, run_algorithm_loop]
  | fuel + 1, ds, rs, hh, hsn, htr, htot => by
    simp only [precompute_loop, run_algorithm_loop, hh, hsn]
    cases hpop : heappop rs.heap with
    | none =>
      refine ⟨htr, htot, ?_, ?_⟩ <;> simp
    | some pr =>
      obtain ⟨cand, heap'⟩ := pr
      by_cases hmem : (cand.i, cand.j) ∈ rs.seen
      · simp only [if_pos hmem]
        exact precompute_loop_lockstep st fuel _ _ rfl rfl htr htot
      · simp only [if_neg hmem]
        obtain ⟨ph, ps, pt, pc, pf⟩ :=
          process_lockstep st ds rs cand heap' hsn htr htot
        rw [pf]
        by_cases hval : (process_candidate st rs cand heap').2 = true
        · simp only [if_pos hval]
          refine ⟨pt, pc, by simp, by simp⟩
        · simp only [if_neg hval]
          exact precompute_loop_lockstep st fuel _ _ ph ps pt pc

/-- C10: the dry run of `precompute_animation_count` and the live search loop
of `run_algorithm` are equivalent: starting from the same two initial
full-range candidates they process the same candidates in the same order,
`total_candidates` equals the number of candidates the live loop processes,
the dry run breaks on a valid pair exactly when the live run succeeds, and it
exhausts its heap exactly when the live run reports no result. -/
theorem precompute_matches_run (points : List (Int × Int)) (fuel : Nat) :
    (precompute_animation_count points fuel).1.trace =
        (run_algorithm points fuel).1.trace ∧
      (precompute_animation_count points fuel).1.total_candidates =
        (run_algorithm points fuel).1.iteration_count ∧
      ((precompute_animation_count points fuel).2 = DryOutcome.found ↔
        ∃ c, (run_algorithm points fuel).2 = RunOutcome.success c) ∧
      ((precompute_animation_count points fuel).2 = DryOutcome.exhausted ↔
        (run_algorithm points fuel).2 = RunOutcome.noSolution) :=
  precompute_loop_lockstep (mkAlgState points) fuel _ _ rfl rfl rfl rfl

end Day09

namespace Day09

/-- C9 counterexample: the code performs no input validation.  On the
two-vertex list `[(0,0), (1,1)]` (fewer than 3 vertices) coordinate
compression succeeds, the search loop runs, processes one candidate pair and
terminates with the normal `NoSolution` outcome — no `InvalidInput` is ever
signalled, and on the empty list compression likewise returns normally with
empty axes. -/
theorem short_input_runs_search :
    compress_xs [] = [] ∧ compress_ys [] = [] ∧
      (run_algorithm [(0, 0), (1, 1)] 8).2 = RunOutcome.noSolution ∧
      (run_algorithm [(0, 0), (1, 1)] 8).1.iteration_count = 1 := by
  refine ⟨rfl, rfl, ?_, ?_⟩ <;> decide

/-- C9 (amended): there is no fail-fast validation anywhere in the pipeline:
on every vertex list — empty and shorter than 3 vertices included —
`compress_coordinates` returns normally, producing the sorted duplicate-free
axes containing exactly the input's coordinate values. -/
theorem compress_coordinates_total (points : List (Int × Int)) :
    (compress_xs points).Sorted (· ≤ ·) ∧ (compress_xs points).Nodup ∧
      (∀ v, v ∈ compress_xs points ↔ v ∈ points.map (·.1)) ∧
      (compress_ys points).Sorted (· ≤ ·) ∧ (compress_ys points).Nodup ∧
      (∀ v, v ∈ compress_ys points ↔ v ∈ points.map (·.2)) :=
  ⟨sortedDistinct_sorted _, sortedDistinct_nodup _, fun v => mem_sortedDistinct _ v,
    sortedDistinct_sorted _, sortedDistinct_nodup _, fun v => mem_sortedDistinct _ v⟩

end Day09

namespace Day09

/-- Counting after a single in-bounds write: the written value replaces the
overwritten one. -/
theorem count_set_add {α : Type} [DecidableEq α] :
    ∀ (l : List α) (i : Nat) (x a : α), i < l.length →
      (l.set i x).count a + (if l.getD i x = a then 1 else 0) =
        l.count a + (if x = a then 1 else 0)
  | [], i, x, a, h => by simp at h
  | b :: t, 0, x, a, _ => by
    simp only [List.set_cons_zero, List.getD_cons_zero, List.count_cons]
    split_ifs <;> simp_all <;> omega
  | b :: t, i + 1, x, a, h => by
    simp only [List.set_cons_succ, List.getD_cons_succ, List.count_cons]
    have ih := count_set_add t i x a (by simpa using h)
    split_ifs at ih ⊢ <;> omega

/-- `getD` at an in-bounds index does not depend on the default. -/
theorem getD_irrel {α : Type} (l : List α) (i : Nat) (d d' : α) (h : i < l.length) :
    l.getD i d = l.getD i d' := by
  rw [List.getD_eq_getElem?_getD, List.getD_eq_getElem?_getD, List.getElem?_eq_getElem h]
  rfl

/-- Writing back the value already stored changes nothing. -/
theorem set_getD_self {α : Type} [DecidableEq α] (l : List α) (i : Nat) (d : α)
    (h : i < l.length) :
    l.set i (l.getD i d) = l := by
  apply List.ext_getElem?
  intro n
  by_cases hn : n = i
  · subst hn
    rw [List.getElem?_set_self (by omega)]
    rw [List.getD_eq_getElem?_getD, List.getElem?_eq_getElem h]
    rfl
  · rw [List.getElem?_set_ne (by omega)]

/-- Moving the value at `q` into `p` and then overwriting `q` is, as a
multiset, the same as overwriting `p` directly. -/
theorem set_set_perm {α : Type} [DecidableEq α] (l : List α) (p q : Nat) (x d : α)
    (hp : p < l.length) (hq : q < l.length) (hne : p ≠ q) :
    List.Perm ((l.set p (l.getD q d)).set q x) (l.set p x) := by
  rw [List.perm_iff_count]
  intro a
  have h1 := count_set_add l p (l.getD q d) a hp
  have h2 := count_set_add (l.set p (l.getD q d)) q x a (by simpa using hq)
  have h3 := count_set_add l p x a hp
  have h4 : (l.set p (l.getD q d)).getD q x = l.getD q x :=
    getD_set_ne _ _ _ _ _ hne
  have h5 : l.getD q d = l.getD q x := getD_irrel l q d x hq
  rw [h4, ← h5] at h2
  have h6 : l.getD p (l.getD q d) = l.getD p x := getD_irrel l p _ _ hp
  rw [h6] at h1
  split_ifs at h1 h2 h3 <;> omega

/-- The `_siftdown` loop permutes the heap: its net effect on the multiset of
elements is a single write of the moving item. -/
theorem heap_siftdown_go_perm (startpos : Nat) (x : Candidate) :
    ∀ (fuel : Nat) (heap : List Candidate) (pos : Nat), pos < heap.length →
      List.Perm (heap_siftdown_go startpos x fuel heap pos) (heap.set pos x)
  | 0, heap, pos, _ => by
    rw [heap_siftdown_go]
  | fuel + 1, heap, pos, h => by
    simp only [heap_siftdown_go]
    split
    · rename_i hlt
      split
      · have hpp : (pos - 1) / 2 < heap.length := by omega
        have hlen : (pos - 1) / 2 < (heap.set pos (heap.getD ((pos - 1) / 2) default)).length := by
          simpa using hpp
        refine (heap_siftdown_go_perm startpos x fuel _ _ hlen).trans ?_
        exact set_set_perm heap pos ((pos - 1) / 2) x default h hpp (by omega)
      · exact List.Perm.refl _
    · exact List.Perm.refl _

/-- `heapq._siftdown` permutes the heap into a single write. -/
theorem heap_siftdown_perm (heap : List Candidate) (startpos pos : Nat) (x : Candidate)
    (h : pos < heap.length) :
    List.Perm (heap_siftdown heap startpos pos x) (heap.set pos x) :=
  heap_siftdown_go_perm startpos x pos heap pos h

/-- Writing just past the end of `l ++ [x]`'s prefix replaces the appended
element. -/
theorem set_append_len {α : Type} (l : List α) (x y : α) :
    (l ++ [x]).set l.length y = l ++ [y] := by
  induction l with
  | nil => rfl
  | cons b t ih => simp [List.set_cons_succ, ih]

/-- `heapq.heappush` adds exactly the pushed element. -/
theorem heappush_perm (heap : List Candidate) (x : Candidate) :
    List.Perm (heappush heap x) (x :: heap) := by
  unfold heappush
  have h : heap.length < (heap ++ [x]).length := by simp
  refine (heap_siftdown_perm _ 0 _ x h).trans ?_
  rw [set_append_len]
  exact List.perm_append_singleton x heap

/-- The `_siftup` descent loop: writing any item at the final position is, as
a multiset, a write at the starting position; the loop also preserves the
length and keeps the final position in range. -/
theorem heap_siftup_go_perm :
    ∀ (fuel : Nat) (heap : List Candidate) (pos : Nat), pos < heap.length →
      (heap_siftup_go fuel heap pos).1.length = heap.length ∧
      (heap_siftup_go fuel heap pos).2 < heap.length ∧
      ∀ x, List.Perm ((heap_siftup_go fuel heap pos).1.set (heap_siftup_go fuel heap pos).2 x)
        (heap.set pos x)
  | 0, heap, pos, h => by
    rw [heap_siftup_go]
    exact ⟨rfl, h, fun x => List.Perm.refl _⟩
  | fuel + 1, heap, pos, h => by
    rw [heap_siftup_go]
    split
    · rename_i hchild
      have hc1 : 2 * pos + 1 ≤ siftup_child heap pos := by
        unfold siftup_child
        split <;> omega
      have hc2 : siftup_child heap pos < heap.length := by
        unfold siftup_child
        split <;> omega
      have hlen : siftup_child heap pos <
          (heap.set pos (heap.getD (siftup_child heap pos) default)).length := by
        simpa using hc2
      obtain ⟨ih1, ih2, ih3⟩ := heap_siftup_go_perm fuel _ _ hlen
      refine ⟨by simpa using ih1, by simpa using ih2, fun x => ?_⟩
      refine (ih3 x).trans ?_
      exact set_set_perm heap pos (siftup_child heap pos) x default h hc2 (by omega)
    · exact ⟨rfl, h, fun x => List.Perm.refl _⟩

/-- `heapq._siftup` permutes the heap. -/
theorem heap_siftup_perm (heap : List Candidate) (pos : Nat) (h : pos < heap.length) :
    List.Perm (heap_siftup heap pos) heap := by
  unfold heap_siftup heap_siftup_loop
  obtain ⟨h1, h2, h3⟩ := heap_siftup_go_perm heap.length heap pos h
  refine (heap_siftdown_perm _ pos _ _ (by omega)).trans ?_
  refine (h3 _).trans ?_
  rw [set_getD_self _ _ _ h]

/-- `heapq.heappop` removes exactly the returned element. -/
theorem heappop_perm (heap : List Candidate) (c : Candidate) (rest : List Candidate)
    (h : heappop heap = some (c, rest)) :
    List.Perm (c :: rest) heap := by
  unfold heappop at h
  cases hlast : heap.getLast? with
  | none => rw [hlast] at h; cases h
  | some lastelt =>
    rw [hlast] at h
    obtain ⟨ys, hys⟩ := List.getLast?_eq_some_iff.1 hlast
    subst hys
    simp only [List.dropLast_concat] at h
    by_cases he : ys.isEmpty
    · rw [if_pos he] at h
      simp only [Option.some.injEq, Prod.mk.injEq] at h
      obtain ⟨rfl, rfl⟩ := h
      rw [List.isEmpty_iff] at he
      subst he
      exact List.Perm.refl _
    · rw [if_neg he] at h
      rw [List.isEmpty_iff] at he
      obtain ⟨yh, yt, rfl⟩ : ∃ yh yt, ys = yh :: yt := by
        cases ys with
        | nil => exact absurd rfl he
        | cons a t => exact ⟨a, t, rfl⟩
      simp only [Option.some.injEq, Prod.mk.injEq] at h
      obtain ⟨rfl, rfl⟩ := h
      have hperm : List.Perm (heap_siftup ((yh :: yt).set 0 lastelt) 0) (lastelt :: yt) := by
        simpa using heap_siftup_perm ((yh :: yt).set 0 lastelt) 0 (by simp)
      refine (List.Perm.cons _ hperm).trans ?_
      refine (List.Perm.swap _ _ _).trans ?_
      simp only [List.headD_cons]
      exact (List.perm_append_singleton _ _).symm

end Day09

namespace Day09

/-- Helper form of the Chebyshev identity used by the search invariants. -/
theorem manhattan_eq_max_abs (p1 p2 : Int × Int) :
    manhattan_distance p1 p2 =
      max |p1.1 + p1.2 - (p2.1 + p2.2)| |p1.1 - p1.2 - (p2.1 - p2.2)| := by
  simp only [manhattan_distance]
  rcases abs_cases (p1.1 - p2.1) with ⟨h1, h1s⟩ | ⟨h1, h1s⟩ <;>
    rcases abs_cases (p1.2 - p2.2) with ⟨h2, h2s⟩ | ⟨h2, h2s⟩ <;>
    rcases abs_cases (p1.1 + p1.2 - (p2.1 + p2.2)) with ⟨h3, h3s⟩ | ⟨h3, h3s⟩ <;>
    rcases abs_cases (p1.1 - p1.2 - (p2.1 - p2.2)) with ⟨h4, h4s⟩ | ⟨h4, h4s⟩ <;>
    rw [h1, h2, h3, h4] <;> omega

/-- The sorted index list is a permutation of `range n`. -/
theorem sort_by_key_perm (key : Nat → Int) (n : Nat) :
    List.Perm (sort_by_key key n) (List.range n) :=
  List.perm_insertionSort _ _

/-- Membership in the sorted index list. -/
theorem sort_by_key_mem (key : Nat → Int) (n : Nat) (x : Nat) :
    x ∈ sort_by_key key n ↔ x < n := by
  rw [(sort_by_key_perm key n).mem_iff, List.mem_range]

/-- Length of the sorted index list. -/
theorem sort_by_key_length (key : Nat → Int) (n : Nat) :
    (sort_by_key key n).length = n := by
  rw [(sort_by_key_perm key n).length_eq, List.length_range]

/-- The sorted index list has no duplicates. -/
theorem sort_by_key_nodup (key : Nat → Int) (n : Nat) :
    (sort_by_key key n).Nodup :=
  ((sort_by_key_perm key n).nodup_iff).2 (List.nodup_range n)

/-- The sorted index list is sorted for the stable (lexicographic) order. -/
theorem sort_by_key_sorted (key : Nat → Int) (n : Nat) :
    (sort_by_key key n).Sorted
      (fun i j => key i < key j ∨ (key i = key j ∧ i ≤ j)) := by
  haveI : IsTotal Nat (fun i j => key i < key j ∨ (key i = key j ∧ i ≤ j)) := by
    refine ⟨fun a b => ?_⟩
    rcases lt_trichotomy (key a) (key b) with h | h | h
    · exact Or.inl (Or.inl h)
    · rcases Nat.le_total a b with hab | hab
      · exact Or.inl (Or.inr ⟨h, hab⟩)
      · exact Or.inr (Or.inr ⟨h.symm, hab⟩)
    · exact Or.inr (Or.inl h)
  haveI : IsTrans Nat (fun i j => key i < key j ∨ (key i = key j ∧ i ≤ j)) := by
    refine ⟨fun a b c hab hbc => ?_⟩
    rcases hab with h | ⟨h1, h2⟩ <;> rcases hbc with g | ⟨g1, g2⟩
    · exact Or.inl (by omega)
    · exact Or.inl (by omega)
    · exact Or.inl (by omega)
    · exact Or.inr ⟨by omega, by omega⟩
  exact List.sorted_insertionSort _ _

/-- The key value at the front of the sorted index list is minimal. -/
theorem sort_by_key_first_le (key : Nat → Int) (n m : Nat) (hm : m < n) :
    key ((sort_by_key key n).getD 0 0) ≤ key m := by
  have hlen : (sort_by_key key n).length = n := sort_by_key_length key n
  have hmem : m ∈ sort_by_key key n := (sort_by_key_mem key n m).2 hm
  obtain ⟨pos, hget⟩ := List.mem_iff_get.1 hmem
  have h0 : (0 : Nat) < (sort_by_key key n).length := by omega
  have hgetD : (sort_by_key key n).getD 0 0 = (sort_by_key key n).get ⟨0, h0⟩ := by
    rw [List.getD_eq_getElem?_getD, List.getElem?_eq_getElem h0]
    rfl
  rw [hgetD]
  have hv : ((⟨0, h0⟩ : Fin (sort_by_key key n).length)).val = 0 := rfl
  by_cases hp : (pos : Nat) = 0
  · have heq : (⟨0, h0⟩ : Fin (sort_by_key key n).length) = pos := Fin.ext (by omega)
    rw [heq, hget]
  · have hlt : (⟨0, h0⟩ : Fin (sort_by_key key n).length) < pos := Fin.lt_def.2 (by omega)
    have hrel := (sort_by_key_sorted key n).rel_get_of_lt hlt
    rw [hget] at hrel
    rcases hrel with h | ⟨h, _⟩
    · exact le_of_lt h
    · exact le_of_eq h

/-- The key value at the back of the sorted index list is maximal. -/
theorem sort_by_key_le_last (key : Nat → Int) (n m : Nat) (hm : m < n) :
    key m ≤ key ((sort_by_key key n).getD (n - 1) 0) := by
  have hlen : (sort_by_key key n).length = n := sort_by_key_length key n
  have hmem : m ∈ sort_by_key key n := (sort_by_key_mem key n m).2 hm
  obtain ⟨pos, hget⟩ := List.mem_iff_get.1 hmem
  have hl : n - 1 < (sort_by_key key n).length := by omega
  have hgetD : (sort_by_key key n).getD (n - 1) 0 =
      (sort_by_key key n).get ⟨n - 1, hl⟩ := by
    rw [List.getD_eq_getElem?_getD, List.getElem?_eq_getElem hl]
    rfl
  rw [hgetD]
  have hv : ((⟨n - 1, hl⟩ : Fin (sort_by_key key n).length)).val = n - 1 := rfl
  have hpos := pos.isLt
  by_cases hp : (pos : Nat) = n - 1
  · have heq : (⟨n - 1, hl⟩ : Fin (sort_by_key key n).length) = pos := Fin.ext (by omega)
    rw [heq, hget]
  · have hlt : pos < (⟨n - 1, hl⟩ : Fin (sort_by_key key n).length) := Fin.lt_def.2 (by omega)
    have hrel := (sort_by_key_sorted key n).rel_get_of_lt hlt
    rw [hget] at hrel
    rcases hrel with h | ⟨h, _⟩
    · exact le_of_lt h
    · exact le_of_eq h

end Day09

namespace Day09

/-- Projection of `mkAlgState` to the u ordering. -/
theorem mkAlgState_by_u (points : List (Int × Int)) :
    (mkAlgState points).by_u =
      sort_by_key
        (fun i => ((points.map fun p => chebyshev_transform p.1 p.2).getD i (0, 0)).1)
        points.length := rfl

/-- Projection of `mkAlgState` to the v ordering. -/
theorem mkAlgState_by_v (points : List (Int × Int)) :
    (mkAlgState points).by_v =
      sort_by_key
        (fun i => ((points.map fun p => chebyshev_transform p.1 p.2).getD i (0, 0)).2)
        points.length := rfl

/-- The u key of an in-range vertex index is `x + y`. -/
theorem cheb_key_fst (points : List (Int × Int)) (i : Nat) (h : i < points.length) :
    ((points.map fun p => chebyshev_transform p.1 p.2).getD i (0, 0)).1 =
      (points.getD i (0, 0)).1 + (points.getD i (0, 0)).2 := by
  simp [List.getD_eq_getElem?_getD, List.getElem?_map, List.getElem?_eq_getElem h,
    chebyshev_transform]

/-- The v key of an in-range vertex index is `x - y`. -/
theorem cheb_key_snd (points : List (Int × Int)) (i : Nat) (h : i < points.length) :
    ((points.map fun p => chebyshev_transform p.1 p.2).getD i (0, 0)).2 =
      (points.getD i (0, 0)).1 - (points.getD i (0, 0)).2 := by
  simp [List.getD_eq_getElem?_getD, List.getElem?_map, List.getElem?_eq_getElem h,
    chebyshev_transform]

/-- Every vertex pair's Manhattan distance is bounded by the larger of the two
initial extreme-pair distances — the Chebyshev argument behind the search. -/
theorem pair_dist_le_extremes (points : List (Int × Int)) (hn : 2 ≤ points.length)
    (a b : Nat) (ha : a < points.length) (hb : b < points.length) :
    manhattan_distance (points.getD a (0, 0)) (points.getD b (0, 0)) ≤
      max
        (manhattan_distance
          (points.getD ((mkAlgState points).by_u.getD 0 0) (0, 0))
          (points.getD ((mkAlgState points).by_u.getD (points.length - 1) 0) (0, 0)))
        (manhattan_distance
          (points.getD ((mkAlgState points).by_v.getD 0 0) (0, 0))
          (points.getD ((mkAlgState points).by_v.getD (points.length - 1) 0) (0, 0))) := by
  have hulen : (mkAlgState points).by_u.length = points.length := by
    rw [mkAlgState_by_u]
    exact sort_by_key_length _ _
  have hvlen : (mkAlgState points).by_v.length = points.length := by
    rw [mkAlgState_by_v]
    exact sort_by_key_length _ _
  have hu0 : (mkAlgState points).by_u.getD 0 0 < points.length := by
    rw [← sort_by_key_mem _ points.length, ← mkAlgState_by_u]
    exact getD_mem _ _ _ (by omega)
  have hul : (mkAlgState points).by_u.getD (points.length - 1) 0 < points.length := by
    rw [← sort_by_key_mem _ points.length, ← mkAlgState_by_u]
    exact getD_mem _ _ _ (by omega)
  have hv0 : (mkAlgState points).by_v.getD 0 0 < points.length := by
    rw [← sort_by_key_mem _ points.length, ← mkAlgState_by_v]
    exact getD_mem _ _ _ (by omega)
  have hvl : (mkAlgState points).by_v.getD (points.length - 1) 0 < points.length := by
    rw [← sort_by_key_mem _ points.length, ← mkAlgState_by_v]
    exact getD_mem _ _ _ (by omega)
  have hda : manhattan_distance (points.getD a (0, 0)) (points.getD b (0, 0)) =
      max |((points.map fun p => chebyshev_transform p.1 p.2).getD a (0, 0)).1 -
            ((points.map fun p => chebyshev_transform p.1 p.2).getD b (0, 0)).1|
          |((points.map fun p => chebyshev_transform p.1 p.2).getD a (0, 0)).2 -
            ((points.map fun p => chebyshev_transform p.1 p.2).getD b (0, 0)).2| := by
    rw [manhattan_eq_max_abs, cheb_key_fst points a ha, cheb_key_fst points b hb,
      cheb_key_snd points a ha, cheb_key_snd points b hb]
  have hdu : manhattan_distance
        (points.getD ((mkAlgState points).by_u.getD 0 0) (0, 0))
        (points.getD ((mkAlgState points).by_u.getD (points.length - 1) 0) (0, 0)) =
      max |((points.map fun p => chebyshev_transform p.1 p.2).getD
              ((mkAlgState points).by_u.getD 0 0) (0, 0)).1 -
            ((points.map fun p => chebyshev_transform p.1 p.2).getD
              ((mkAlgState points).by_u.getD (points.length - 1) 0) (0, 0)).1|
          |((points.map fun p => chebyshev_transform p.1 p.2).getD
              ((mkAlgState points).by_u.getD 0 0) (0, 0)).2 -
            ((points.map fun p => chebyshev_transform p.1 p.2).getD
              ((mkAlgState points).by_u.getD (points.length - 1) 0) (0, 0)).2| := by
    rw [manhattan_eq_max_abs, cheb_key_fst points _ hu0, cheb_key_fst points _ hul,
      cheb_key_snd points _ hu0, cheb_key_snd points _ hul]
  have hdv : manhattan_distance
        (points.getD ((mkAlgState points).by_v.getD 0 0) (0, 0))
        (points.getD ((mkAlgState points).by_v.getD (points.length - 1) 0) (0, 0)) =
      max |((points.map fun p => chebyshev_transform p.1 p.2).getD
              ((mkAlgState points).by_v.getD 0 0) (0, 0)).1 -
            ((points.map fun p => chebyshev_transform p.1 p.2).getD
              ((mkAlgState points).by_v.getD (points.length - 1) 0) (0, 0)).1|
          |((points.map fun p => chebyshev_transform p.1 p.2).getD
              ((mkAlgState points).by_v.getD 0 0) (0, 0)).2 -
            ((points.map fun p => chebyshev_transform p.1 p.2).getD
              ((mkAlgState points).by_v.getD (points.length - 1) 0) (0, 0)).2| := by
    rw [manhattan_eq_max_abs, cheb_key_fst points _ hv0, cheb_key_fst points _ hvl,
      cheb_key_snd points _ hv0, cheb_key_snd points _ hvl]
  have hua1 := sort_by_key_first_le
    (fun i => ((points.map fun p => chebyshev_transform p.1 p.2).getD i (0, 0)).1)
    points.length a ha
  have hua2 := sort_by_key_le_last
    (fun i => ((points.map fun p => chebyshev_transform p.1 p.2).getD i (0, 0)).1)
    points.length a ha
  have hub1 := sort_by_key_first_le
    (fun i => ((points.map fun p => chebyshev_transform p.1 p.2).getD i (0, 0)).1)
    points.length b hb
  have hub2 := sort_by_key_le_last
    (fun i => ((points.map fun p => chebyshev_transform p.1 p.2).getD i (0, 0)).1)
    points.length b hb
  have hva1 := sort_by_key_first_le
    (fun i => ((points.map fun p => chebyshev_transform p.1 p.2).getD i (0, 0)).2)
    points.length a ha
  have hva2 := sort_by_key_le_last
    (fun i => ((points.map fun p => chebyshev_transform p.1 p.2).getD i (0, 0)).2)
    points.length a ha
  have hvb1 := sort_by_key_first_le
    (fun i => ((points.map fun p => chebyshev_transform p.1 p.2).getD i (0, 0)).2)
    points.length b hb
  have hvb2 := sort_by_key_le_last
    (fun i => ((points.map fun p => chebyshev_transform p.1 p.2).getD i (0, 0)).2)
    points.length b hb
  rw [← mkAlgState_by_u] at hua1 hua2 hub1 hub2
  rw [← mkAlgState_by_v] at hva1 hva2 hvb1 hvb2
  rw [hda]
  apply max_le
  · refine le_trans ?_ (le_max_left _ _)
    rw [hdu]
    refine le_trans ?_ (le_max_left _ _)
    simp only [] at hua1 hua2 hub1 hub2
    rw [abs_sub_le_iff]
    constructor
    · have := le_abs_self
        (((points.map fun p => chebyshev_transform p.1 p.2).getD
            ((mkAlgState points).by_u.getD 0 0) (0, 0)).1 -
          ((points.map fun p => chebyshev_transform p.1 p.2).getD
            ((mkAlgState points).by_u.getD (points.length - 1) 0) (0, 0)).1)
      have habs := abs_sub_comm
        (((points.map fun p => chebyshev_transform p.1 p.2).getD
            ((mkAlgState points).by_u.getD 0 0) (0, 0)).1)
        (((points.map fun p => chebyshev_transform p.1 p.2).getD
            ((mkAlgState points).by_u.getD (points.length - 1) 0) (0, 0)).1)
      have habs2 := le_abs_self
        (((points.map fun p => chebyshev_transform p.1 p.2).getD
            ((mkAlgState points).by_u.getD (points.length - 1) 0) (0, 0)).1 -
          ((points.map fun p => chebyshev_transform p.1 p.2).getD
            ((mkAlgState points).by_u.getD 0 0) (0, 0)).1)
      omega
    · have habs := abs_sub_comm
        (((points.map fun p => chebyshev_transform p.1 p.2).getD
            ((mkAlgState points).by_u.getD 0 0) (0, 0)).1)
        (((points.map fun p => chebyshev_transform p.1 p.2).getD
            ((mkAlgState points).by_u.getD (points.length - 1) 0) (0, 0)).1)
      have habs2 := le_abs_self
        (((points.map fun p => chebyshev_transform p.1 p.2).getD
            ((mkAlgState points).by_u.getD (points.length - 1) 0) (0, 0)).1 -
          ((points.map fun p => chebyshev_transform p.1 p.2).getD
            ((mkAlgState points).by_u.getD 0 0) (0, 0)).1)
      omega
  · refine le_trans ?_ (le_max_right _ _)
    rw [hdv]
    refine le_trans ?_ (le_max_right _ _)
    simp only [] at hva1 hva2 hvb1 hvb2
    rw [abs_sub_le_iff]
    constructor
    · have habs2 := le_abs_self
        (((points.map fun p => chebyshev_transform p.1 p.2).getD
            ((mkAlgState points).by_v.getD 0 0) (0, 0)).2 -
          ((points.map fun p => chebyshev_transform p.1 p.2).getD
            ((mkAlgState points).by_v.getD (points.length - 1) 0) (0, 0)).2)
      have habs := abs_sub_comm
        (((points.map fun p => chebyshev_transform p.1 p.2).getD
            ((mkAlgState points).by_v.getD 0 0) (0, 0)).2)
        (((points.map fun p => chebyshev_transform p.1 p.2).getD
            ((mkAlgState points).by_v.getD (points.length - 1) 0) (0, 0)).2)
      have habs3 := le_abs_self
        (((points.map fun p => chebyshev_transform p.1 p.2).getD
            ((mkAlgState points).by_v.getD (points.length - 1) 0) (0, 0)).2 -
          ((points.map fun p => chebyshev_transform p.1 p.2).getD
            ((mkAlgState points).by_v.getD 0 0) (0, 0)).2)
      omega
    · have habs := abs_sub_comm
        (((points.map fun p => chebyshev_transform p.1 p.2).getD
            ((mkAlgState points).by_v.getD 0 0) (0, 0)).2)
        (((points.map fun p => chebyshev_transform p.1 p.2).getD
            ((mkAlgState points).by_v.getD (points.length - 1) 0) (0, 0)).2)
      have habs2 := le_abs_self
        (((points.map fun p => chebyshev_transform p.1 p.2).getD
            ((mkAlgState points).by_v.getD (points.length - 1) 0) (0, 0)).2 -
          ((points.map fun p => chebyshev_transform p.1 p.2).getD
            ((mkAlgState points).by_v.getD 0 0) (0, 0)).2)
      omega

end Day09

namespace Day09

/-- Manhattan distance is symmetric. -/
theorem manhattan_comm (p q : Int × Int) :
    manhattan_distance p q = manhattan_distance q p := by
  unfold manhattan_distance
  rw [abs_sub_comm p.1 q.1, abs_sub_comm p.2 q.2]

/-- Branch-free restatement of `add_candidate`. -/
theorem add_candidate_eq (st : AlgState) (seen : List (Nat × Nat))
    (heap : List Candidate) (l r : Nat) (src : Dim) (sorted_arr : List Nat) :
    add_candidate st seen heap l r src sorted_arr =
      if l < r ∧
          (min (sorted_arr.getD l 0) (sorted_arr.getD r 0),
           max (sorted_arr.getD l 0) (sorted_arr.getD r 0)) ∉ seen then
        heappush heap
          ⟨manhattan_distance (st.points.getD (sorted_arr.getD l 0) (0, 0))
              (st.points.getD (sorted_arr.getD r 0) (0, 0)),
            min (sorted_arr.getD l 0) (sorted_arr.getD r 0),
            max (sorted_arr.getD l 0) (sorted_arr.getD r 0), src, l, r⟩
      else heap := by
  unfold add_candidate
  by_cases hlr : l < r
  · rw [if_pos hlr]
    show (if (min (sorted_arr.getD l 0) (sorted_arr.getD r 0),
          max (sorted_arr.getD l 0) (sorted_arr.getD r 0)) ∈ seen then heap
        else heappush heap
          ⟨manhattan_distance (st.points.getD (sorted_arr.getD l 0) (0, 0))
              (st.points.getD (sorted_arr.getD r 0) (0, 0)),
            min (sorted_arr.getD l 0) (sorted_arr.getD r 0),
            max (sorted_arr.getD l 0) (sorted_arr.getD r 0), src, l, r⟩) = _
    by_cases hs : (min (sorted_arr.getD l 0) (sorted_arr.getD r 0),
        max (sorted_arr.getD l 0) (sorted_arr.getD r 0)) ∈ seen
    · rw [if_pos hs, if_neg (fun hcon => hcon.2 hs)]
    · rw [if_neg hs, if_pos ⟨hlr, hs⟩]
  · rw [if_neg hlr, if_neg (fun hcon => hlr hcon.1)]

/-- Distinct positions of a duplicate-free list hold distinct values. -/
theorem nodup_getD_ne (l : List Nat) (hnd : l.Nodup) (a b : Nat)
    (ha : a < l.length) (hb : b < l.length) (hab : a ≠ b) :
    l.getD a 0 ≠ l.getD b 0 := by
  intro h
  rw [List.getD_eq_getElem?_getD, List.getElem?_eq_getElem ha,
    List.getD_eq_getElem?_getD, List.getElem?_eq_getElem hb] at h
  simp only [Option.getD_some] at h
  have h2 : l.get ⟨a, ha⟩ = l.get ⟨b, hb⟩ := by
    rw [List.get_eq_getElem, List.get_eq_getElem]
    exact h
  have h3 := (List.Nodup.get_inj_iff hnd).1 h2
  exact hab (congrArg Fin.val h3)

/-- The stable index sort always produces a well-formed index array. -/
theorem sort_by_key_arrOK (key : Nat → Int) (n : Nat) :
    ArrOK n (sort_by_key key n) :=
  ⟨sort_by_key_length key n, sort_by_key_nodup key n,
   fun x hx => (sort_by_key_mem key n x).1 hx⟩

/-- The u ordering of a session is a well-formed index array. -/
theorem mkAlgState_arrOK_u (points : List (Int × Int)) :
    ArrOK (mkAlgState points).points.length (mkAlgState points).by_u := by
  rw [mkAlgState_by_u, mkAlgState_points]
  exact sort_by_key_arrOK _ _

/-- The v ordering of a session is a well-formed index array. -/
theorem mkAlgState_arrOK_v (points : List (Int × Int)) :
    ArrOK (mkAlgState points).points.length (mkAlgState points).by_v := by
  rw [mkAlgState_by_v, mkAlgState_points]
  exact sort_by_key_arrOK _ _

/-- `add_candidate` preserves candidate well-formedness: any pushed candidate
carries a canonical in-range pair and its true Manhattan distance. -/
theorem add_candidate_ok (st : AlgState) (seen : List (Nat × Nat))
    (heap : List Candidate) (l r : Nat) (src : Dim) (arr : List Nat)
    (harr : ArrOK st.points.length arr) (hr : r < st.points.length)
    (hheap : ∀ c ∈ heap, CandOK st c) :
    ∀ c ∈ add_candidate st seen heap l r src arr, CandOK st c := by
  obtain ⟨hlen, hnd, hmem⟩ := harr
  intro c hc
  rw [add_candidate_eq] at hc
  split at hc
  · rename_i hcond
    obtain ⟨hlr, -⟩ := hcond
    have hmemi := (heappush_perm _ _).mem_iff.1 hc
    rcases List.mem_cons.1 hmemi with hceq | hcin
    · subst hceq
      set i := arr.getD l 0 with hidef
      set j := arr.getD r 0 with hjdef
      have hi : i < st.points.length := hmem i (getD_mem arr l 0 (by omega))
      have hj : j < st.points.length := hmem j (getD_mem arr r 0 (by omega))
      have hne : i ≠ j := nodup_getD_ne arr hnd l r (by omega) (by omega) (by omega)
      refine ⟨?_, ?_, ?_, ?_⟩
      · show min i j < max i j
        omega
      · show max i j < st.points.length
        omega
      · show r < st.points.length
        exact hr
      · show manhattan_distance (st.points.getD i (0, 0)) (st.points.getD j (0, 0)) =
          manhattan_distance (st.points.getD (min i j) (0, 0))
            (st.points.getD (max i j) (0, 0))
        rcases Nat.lt_or_ge i j with hij | hij
        · rw [Nat.min_eq_left (by omega), Nat.max_eq_right (by omega)]
        · rw [Nat.min_eq_right (by omega), Nat.max_eq_left (by omega)]
          exact manhattan_comm _ _
    · exact hheap c hcin
  · exact hheap c hc

/-- The heap component of `process_candidate`, written without the record
update. -/
theorem process_candidate_heap (st : AlgState) (rs : RunState) (cand : Candidate)
    (heap' : List Candidate) :
    (process_candidate st rs cand heap').1.heap =
      if is_valid_rectangle st cand.i cand.j then heap'
      else
        add_candidate st ((cand.i, cand.j) :: rs.seen)
          (add_candidate st ((cand.i, cand.j) :: rs.seen) heap' (cand.left + 1)
            cand.right cand.source
            (if cand.source = Dim.u then st.by_u else st.by_v))
          cand.left (cand.right - 1) cand.source
          (if cand.source = Dim.u then st.by_u else st.by_v) := by
  unfold process_candidate
  split
  · rfl
  · rfl

/-- `process_candidate` preserves candidate well-formedness of the heap. -/
theorem process_candidate_ok (st : AlgState) (rs : RunState) (cand : Candidate)
    (heap' : List Candidate)
    (hu : ArrOK st.points.length st.by_u) (hv : ArrOK st.points.length st.by_v)
    (hh : ∀ c ∈ heap', CandOK st c) (hrb : cand.right < st.points.length) :
    ∀ c ∈ (process_candidate st rs cand heap').1.heap, CandOK st c := by
  rw [process_candidate_heap]
  by_cases hval : is_valid_rectangle st cand.i cand.j = true
  · rw [if_pos hval]
    exact hh
  · rw [if_neg hval]
    have harr : ArrOK st.points.length
        (if cand.source = Dim.u then st.by_u else st.by_v) := by
      cases hsrc : cand.source
      · exact hu
      · exact hv
    refine add_candidate_ok st _ _ _ _ _ _ harr (by omega) ?_
    exact add_candidate_ok st _ _ _ _ _ _ harr hrb hh

/-- The search-loop invariant: starting from a well-formed heap and trace,
every processed candidate is well-formed, and a successful outcome's candidate
is well-formed and validated by `is_valid_rectangle`. -/
theorem run_algorithm_loop_ok (st : AlgState)
    (hu : ArrOK st.points.length st.by_u) (hv : ArrOK st.points.length st.by_v) :
    ∀ (fuel : Nat) (rs : RunState),
      (∀ c ∈ rs.heap, CandOK st c) →
      (∀ c ∈ rs.trace, CandOK st c) →
      (∀ c ∈ (run_algorithm_loop st fuel rs).1.trace, CandOK st c) ∧
      ∀ c : Candidate, (run_algorithm_loop st fuel rs).2 = RunOutcome.success c →
        CandOK st c ∧ is_valid_rectangle st c.i c.j = true
  | 0, rs, _, ht => by
    refine ⟨ht, ?_⟩
    intro c hc
    exact RunOutcome.noConfusion
      (show RunOutcome.outOfFuel = RunOutcome.success c from hc)
  | fuel + 1, rs, hh, ht => by
    simp only [run_algorithm_loop]
    split
    · refine ⟨ht, ?_⟩
      intro c hc
      exact RunOutcome.noConfusion
        (show RunOutcome.noSolution = RunOutcome.success c from hc)
    · rename_i cand heap' hpop
      have hperm := heappop_perm rs.heap cand heap' hpop
      have hcand : CandOK st cand := hh cand (hperm.subset (List.mem_cons_self _ _))
      have hh' : ∀ c ∈ heap', CandOK st c :=
        fun c hc => hh c (hperm.subset (List.mem_cons_of_mem _ hc))
      split
      · exact run_algorithm_loop_ok st hu hv fuel _ hh' ht
      · rename_i hseen
        have htr : ∀ c ∈ (process_candidate st rs cand heap').1.trace,
            CandOK st c := by
          rw [process_candidate_trace]
          intro c hc
          rcases List.mem_append.1 hc with h1 | h2
          · exact ht c h1
          · rw [List.mem_singleton] at h2
            subst h2
            exact hcand
        split
        · rename_i hflag
          refine ⟨htr, ?_⟩
          intro c hc
          have hceq := (show RunOutcome.success cand = RunOutcome.success c from hc)
          injection hceq with hceq2
          subst hceq2
          refine ⟨hcand, ?_⟩
          rw [process_candidate_flag st rs cand heap'] at hflag
          exact hflag
        · exact run_algorithm_loop_ok st hu hv fuel _
            (process_candidate_ok st rs cand heap' hu hv hh' hcand.2.2.1) htr

/-- Top-level well-formedness of a whole run: every processed candidate is a
canonical in-range pair at its true distance, and a success outcome reports a
validated such pair. -/
theorem run_algorithm_ok (points : List (Int × Int)) (fuel : Nat)
    (hn : 1 ≤ points.length) :
    (∀ c ∈ (run_algorithm points fuel).1.trace, CandOK (mkAlgState points) c) ∧
    ∀ c : Candidate, (run_algorithm points fuel).2 = RunOutcome.success c →
      CandOK (mkAlgState points) c ∧
      is_valid_rectangle (mkAlgState points) c.i c.j = true := by
  have hnlen : (mkAlgState points).points.length = points.length := by
    rw [mkAlgState_points]
  have hinit : ∀ c ∈ (initial_state (mkAlgState points)).heap,
      CandOK (mkAlgState points) c := by
    show ∀ c ∈ add_candidate (mkAlgState points) []
        (add_candidate (mkAlgState points) [] [] 0
          ((mkAlgState points).points.length - 1) Dim.u (mkAlgState points).by_u)
        0 ((mkAlgState points).points.length - 1) Dim.v (mkAlgState points).by_v,
      CandOK (mkAlgState points) c
    refine add_candidate_ok _ _ _ _ _ _ _ (mkAlgState_arrOK_v points) (by omega) ?_
    refine add_candidate_ok _ _ _ _ _ _ _ (mkAlgState_arrOK_u points) (by omega) ?_
    intro c hc
    exact absurd hc (List.not_mem_nil c)
  unfold run_algorithm
  exact run_algorithm_loop_ok (mkAlgState points) (mkAlgState_arrOK_u points)
    (mkAlgState_arrOK_v points) fuel (initial_state (mkAlgState points)) hinit
    (fun c hc => absurd hc (List.not_mem_nil c))

end Day09

namespace Day09

/-- C1 counterexample: on the cross-shaped polygon `cex_opt` the search
terminates by popping the valid candidate for pair `(5, 7)` at distance 4,
although pair `(2, 8)` also forms a valid rectangle and has Manhattan
distance 5 — the first valid pop is not the global optimum, because the
shared seen set lets the pair's v-ordering copy suppress the u-ordering
expansion that reaches the optimum. -/
theorem run_algorithm_not_optimal :
    (run_algorithm cex_opt 64).2 = RunOutcome.success ⟨4, 5, 7, Dim.u, 2, 10⟩ ∧
      is_valid_rectangle (mkAlgState cex_opt) 2 8 = true ∧
      manhattan_distance (cex_opt.getD 2 (0, 0)) (cex_opt.getD 8 (0, 0)) = 5 := by
  refine ⟨by decide, by decide, by decide⟩

/-- C1 (amended): when the frontier search terminates by popping a valid
candidate, the returned pair is a canonical in-range vertex pair that
`is_valid_rectangle` accepts, and its reported distance is the true Manhattan
distance of that pair — but it need not be of maximal distance among all
valid pairs. -/
theorem run_algorithm_success_valid (points : List (Int × Int)) (fuel : Nat)
    (hn : 1 ≤ points.length) (c : Candidate)
    (h : (run_algorithm points fuel).2 = RunOutcome.success c) :
    is_valid_rectangle (mkAlgState points) c.i c.j = true ∧ c.i < c.j ∧
      c.j < points.length ∧
      c.distance = manhattan_distance (points.getD c.i (0, 0))
        (points.getD c.j (0, 0)) := by
  have hok := (run_algorithm_ok points fuel hn).2 c h
  have hco : c.i < c.j ∧ c.j < points.length ∧ c.right < points.length ∧
      c.distance = manhattan_distance (points.getD c.i (0, 0))
        (points.getD c.j (0, 0)) := hok.1
  exact ⟨hok.2, hco.1, hco.2.1, hco.2.2.2⟩

/-- Witness for the amended C1 on the square polygon: the run succeeds with
pair `(0, 2)` at distance 4, and the theorem yields its validity and true
distance. -/
theorem run_algorithm_success_valid_witness :
    is_valid_rectangle (mkAlgState sqPoints) 0 2 = true ∧
      0 < 2 ∧ 2 < sqPoints.length ∧
      (4 : Int) = manhattan_distance (sqPoints.getD 0 (0, 0))
        (sqPoints.getD 2 (0, 0)) :=
  run_algorithm_success_valid sqPoints 20 (by decide) ⟨4, 0, 2, Dim.u, 0, 3⟩
    (by decide)

/-- C3 counterexample: on the polygon `cex_mono` the distances of the
candidates processed by the search (pops whose pair is unseen), in order, are
`[10, 9, 9, 8, 8, 8, 7, 7, 7, 6, 7, 6]`: the tenth processed candidate has
distance 6 and the eleventh distance 7, so the sequence is not
non-increasing. -/
theorem run_algorithm_distances_not_monotone :
    ((run_algorithm cex_mono 64).1.trace.map fun c => c.distance) =
        [10, 9, 9, 8, 8, 8, 7, 7, 7, 6, 7, 6] ∧
      ((run_algorithm cex_mono 64).1.trace.map fun c => c.distance).getD 9 0 = 6 ∧
      ((run_algorithm cex_mono 64).1.trace.map fun c => c.distance).getD 10 0 = 7 := by
  refine ⟨by decide, by decide, by decide⟩

/-- C3 (amended): processed-candidate distances are not monotone, but they
are uniformly bounded: every candidate the search processes has distance at
most the larger of the two initial extreme-pair distances (the first
candidates pushed by `construct`), by the Chebyshev extremality of the two
sorted orderings. -/
theorem run_algorithm_distance_bounded (points : List (Int × Int)) (fuel : Nat)
    (hn : 2 ≤ points.length) (c : Candidate)
    (hc : c ∈ (run_algorithm points fuel).1.trace) :
    c.distance ≤
      max
        (manhattan_distance (points.getD ((mkAlgState points).by_u.getD 0 0) (0, 0))
          (points.getD ((mkAlgState points).by_u.getD (points.length - 1) 0) (0, 0)))
        (manhattan_distance (points.getD ((mkAlgState points).by_v.getD 0 0) (0, 0))
          (points.getD ((mkAlgState points).by_v.getD (points.length - 1) 0) (0, 0))) := by
  have hok := (run_algorithm_ok points fuel (by omega)).1 c hc
  have hco : c.i < c.j ∧ c.j < points.length ∧ c.right < points.length ∧
      c.distance = manhattan_distance (points.getD c.i (0, 0))
        (points.getD c.j (0, 0)) := hok
  rw [hco.2.2.2]
  exact pair_dist_le_extremes points hn c.i c.j (by omega) hco.2.1

/-- Witness for the amended C3 on the square polygon: the single processed
candidate has distance 4, bounded by the initial extreme-pair distances. -/
theorem run_algorithm_distance_bounded_witness :
    (4 : Int) ≤
      max
        (manhattan_distance (sqPoints.getD ((mkAlgState sqPoints).by_u.getD 0 0) (0, 0))
          (sqPoints.getD ((mkAlgState sqPoints).by_u.getD (sqPoints.length - 1) 0) (0, 0)))
        (manhattan_distance (sqPoints.getD ((mkAlgState sqPoints).by_v.getD 0 0) (0, 0))
          (sqPoints.getD ((mkAlgState sqPoints).by_v.getD (sqPoints.length - 1) 0) (0, 0))) :=
  run_algorithm_distance_bounded sqPoints 20 (by decide) ⟨4, 0, 2, Dim.u, 0, 3⟩
    (by decide)

end Day09

namespace Day09

/-- Along a run that ends in queue exhaustion, every candidate the loop
processes fails `is_valid_rectangle` (a valid one would have ended the run
with success instead). -/
theorem run_algorithm_loop_nosol (st : AlgState) :
    ∀ (fuel : Nat) (rs : RunState),
      (∀ c ∈ rs.trace, is_valid_rectangle st c.i c.j = false) →
      (run_algorithm_loop st fuel rs).2 = RunOutcome.noSolution →
      ∀ c ∈ (run_algorithm_loop st fuel rs).1.trace,
        is_valid_rectangle st c.i c.j = false
  | 0, rs, ht => by
    intro hout
    exact absurd hout (by simp [run_algorithm_loop])
  | fuel + 1, rs, ht => by
    simp only [run_algorithm_loop]
    split
    · intro hout
      exact ht
    · rename_i cand heap' hpop
      split
      · exact run_algorithm_loop_nosol st fuel _ ht
      · rename_i hseen
        split
        · rename_i hflag
          intro hout
          exact absurd (show RunOutcome.success cand = RunOutcome.noSolution from hout)
            (by intro h; cases h)
        · rename_i hflag
          refine run_algorithm_loop_nosol st fuel _ ?_
          rw [process_candidate_trace]
          intro c hc
          rcases List.mem_append.1 hc with h1 | h2
          · exact ht c h1
          · rw [List.mem_singleton] at h2
            subst h2
            rw [process_candidate_flag] at hflag
            simpa using hflag

/-- C2 counterexample: on the simple rectilinear polygon `skyline` the search
exhausts its queue and reports no solution, although `is_valid_rectangle`
accepts the vertex pairs `(0, 4)` and `(5, 7)` — neither of which the loop
ever processed.  The shared seen set of the u and v orderings prunes every
expansion path that would reach a valid pair, so queue exhaustion does not
imply that no valid rectangle exists. -/
theorem run_algorithm_exhausts_missing_valid_pair :
    (run_algorithm skyline 200).2 = RunOutcome.noSolution ∧
      is_valid_rectangle (mkAlgState skyline) 0 4 = true ∧
      is_valid_rectangle (mkAlgState skyline) 5 7 = true ∧
      (0, 4) ∉ (run_algorithm skyline 200).1.trace.map (fun c => (c.i, c.j)) ∧
      (5, 7) ∉ (run_algorithm skyline 200).1.trace.map (fun c => (c.i, c.j)) := by
  refine ⟨by decide, by decide, by decide, by decide, by decide⟩

/-- C2 (amended): queue exhaustion (`NoSolution`) is a normal terminal
outcome, distinct from success, and it does imply that every pair the loop
actually processed fails `is_valid_rectangle`; it does NOT imply that no
valid rectangle exists among all vertex pairs. -/
theorem run_algorithm_no_solution_checked_invalid (points : List (Int × Int))
    (fuel : Nat)
    (h : (run_algorithm points fuel).2 = RunOutcome.noSolution) :
    ∀ c ∈ (run_algorithm points fuel).1.trace,
      is_valid_rectangle (mkAlgState points) c.i c.j = false := by
  unfold run_algorithm at h ⊢
  exact run_algorithm_loop_nosol (mkAlgState points) fuel _
    (fun c hc => absurd hc (List.not_mem_nil c)) h

/-- Witness for the amended C2 on a two-vertex input, whose run exhausts
after processing the single (invalid) pair `(0, 1)`. -/
theorem run_algorithm_no_solution_checked_invalid_witness :
    is_valid_rectangle (mkAlgState [((0 : Int), (0 : Int)), (1, 1)]) 0 1 = false :=
  run_algorithm_no_solution_checked_invalid [((0 : Int), (0 : Int)), (1, 1)] 8
    (by decide) ⟨2, 0, 1, Dim.u, 0, 1⟩ (by decide)

end Day09
